import Mathlib

/-!
# Interrupt pipeline of `arch/blackfin/kernel/ipipe.c`

A shallow embedding of the dispatch engine (`__ipipe_handle_irq`,
`ipipe_trigger_irq`), of the threaded-IRQ scheduler (`kick_irqd`, the loop of
`do_irqd`, `ipipe_start_irq_thread`) and of the enable/disable accounting
(`__ipipe_enable_irqdesc`, `__ipipe_disable_irqdesc`), with the properties of
the specification stated over it.

Conventions of the embedding:

* a `struct ipipe_domain *` is the position of the domain in the list
  `__ipipe_pipeline` (0 is the highest priority domain);
* the words tested with `test_bit` are natural numbers, bit `n` of `w` being
  `Nat.testBit w n`;
* the functions the file calls but does not define (`__ipipe_walk_pipeline`,
  `__ipipe_dispatch_wired`) are parameters acting on the state (`Env`);
* every function returns the list of the effects it performed itself, in
  program order (`Event`), next to the state it leaves.
-/

namespace Ipipe

/-! ## Constants taken from headers -/

/-- Constants and predicates that `ipipe.c` takes from headers which are not
part of the file. They are parameters of every definition below. -/
structure Consts where
  IPIPE_NR_IRQS : Nat
  IPIPE_VIRQ_BASE : Nat
  ipipe_virtual_irq_p : Nat → Bool
  EINVAL : Nat
  IRQ_SYSTMR : Nat
  IRQ_CORETMR : Nat
  IPIPE_HANDLE_FLAG : Nat
  IPIPE_PASS_FLAG : Nat
  IPIPE_STICKY_FLAG : Nat
  IPIPE_WIRED_FLAG : Nat
  IPIPE_ROOTLOCK_FLAG : Nat
  IPIPE_STALL_FLAG : Nat
  IRQ_SCHEDULED : Nat

/-- Sample values of the constants, used by the worked examples. -/
def K0 : Consts where
  IPIPE_NR_IRQS := 96
  IPIPE_VIRQ_BASE := 64
  ipipe_virtual_irq_p := fun irq => decide (64 ≤ irq ∧ irq < 96)
  EINVAL := 22
  IRQ_SYSTMR := 7
  IRQ_CORETMR := 6
  IPIPE_HANDLE_FLAG := 0
  IPIPE_PASS_FLAG := 1
  IPIPE_STICKY_FLAG := 3
  IPIPE_WIRED_FLAG := 6
  IPIPE_ROOTLOCK_FLAG := 2
  IPIPE_STALL_FLAG := 0
  IRQ_SCHEDULED := 1024

/-! ## Bit operations -/

/-- The kernel's `test_bit(nr, &word)`. -/
def test_bit (nr : Nat) (word : Nat) : Bool := word.testBit nr

/-- The kernel's `__set_bit(nr, &word)`: the new value of the word. -/
def set_bit (nr : Nat) (word : Nat) : Nat := word ||| (1 <<< nr)

/-- The kernel's `__clear_bit(nr, &word)`: the new value of the word,
`word & ~(1 << nr)`. -/
def clear_bit (nr : Nat) (word : Nat) : Nat := word ^^^ (word &&& (1 <<< nr))

/-- Subtraction of two `unsigned` values (32 bits), as in
`irq - IPIPE_VIRQ_BASE`. -/
def usub32 (a b : Nat) : Nat := (a % 2 ^ 32 + 2 ^ 32 - b % 2 ^ 32) % 2 ^ 32

/-! ## Data model -/

/-- One entry of `ipd->irqs[]`: the control word, the acknowledge callback
(`none` is the NULL pointer, `some f` the callback `f`) and the handler. -/
structure IrqEntry where
  control : Nat
  acknowledge : Option Nat
  handler : Option Nat

/-- The fields of `struct ipipe_domain` read by the dispatch engine. -/
structure ipipe_domain where
  irqs : Nat → IrqEntry

/-- The list `__ipipe_pipeline` seen from `ipipe_current_domain`, which is a
member of it: the domains linked ahead of the current domain (highest priority
first), the current domain, and the domains linked after it. `root_flags` is
`ipipe_root_domain->flags`, the only field of the root domain descriptor the
dispatch engine reads besides its stall bit. -/
structure Pipeline where
  ahead : List ipipe_domain
  this_domain : ipipe_domain
  behind : List ipipe_domain
  root_flags : Nat

/-- All the domains of the pipeline, in the order of the `p_link` chain. -/
def Pipeline.domains (P : Pipeline) : List ipipe_domain :=
  P.ahead ++ P.this_domain :: P.behind

/-- Position of `ipipe_current_domain` in the pipeline, `&this_domain->p_link`. -/
def Pipeline.this_pos (P : Pipeline) : Nat := P.ahead.length

/-- The domain `list_entry(__ipipe_pipeline.next, struct ipipe_domain, p_link)`. -/
def Pipeline.first (P : Pipeline) : ipipe_domain :=
  match P.ahead with
  | [] => P.this_domain
  | d :: _ => d

/-- The mutable state of one processor the dispatch engine works on.
`irqpend dom irq` is the pending bit of `irq` in the log of the domain at
position `dom`; `root_status` is `ipipe_root_cpudom_var(status)`;
`hw_irqs_on` is the hardware interrupt flag; `virtual_irq_map` is
`__ipipe_virtual_irq_map`. -/
structure State where
  irqpend : Nat → Nat → Bool
  root_status : Nat
  hw_irqs_on : Bool
  virtual_irq_map : Nat

/-- An effect performed by the code, as it appears in a trace. -/
inductive Event where
  | set_irq_pending (dom irq : Nat)
  | acknowledge (dom cb irq : Nat)
  | test_and_set_stall
  | dispatch_wired (dom irq : Nat)
  | walk_pipeline (head : Nat)
  | clear_stall
  | handle_irq (irq : Nat) (regs_null : Bool)
  deriving DecidableEq

/-- The functions of the I-pipe core that `ipipe.c` calls and does not define:
they run handlers, and are known here only as actions on the state. -/
structure Env where
  dispatch_wired : Nat → Nat → State → State
  walk_pipeline : Nat → State → State

/-- What a call leaves: its own effects in program order, and the state. -/
structure Outcome where
  trace : List Event
  state : State

/-! ## The dispatch engine -/

/-- Modelled from the spec: `__ipipe_set_irq_pending(ipd, irq)` is a macro of a
header that is not part of the file; the spec says it marks the Pending-Set
entry of the domain for the IRQ as pending. -/
def __ipipe_set_irq_pending (dom irq : Nat) (st : State) : State :=
  { st with irqpend := fun d i => if d = dom ∧ i = irq then true else st.irqpend d i }

/-- The value of the root stall bit. -/
def stalled (K : Consts) (st : State) : Bool :=
  test_bit K.IPIPE_STALL_FLAG st.root_status

/-- The statement `s = __test_and_set_bit(IPIPE_STALL_FLAG, &status)`:
the previous bit and the new state. -/
def test_and_set_stall (K : Consts) (st : State) : Int × State :=
  (if stalled K st then 1 else 0,
   { st with root_status := set_bit K.IPIPE_STALL_FLAG st.root_status })

/-- The loop of lines 131-161, started at the domain of position `pos` whose
`p_link` chain holds the domains of the list: marks the IRQ pending in the
domains that handle it, acknowledges it once, stops after a domain without
PASS. -/
def mark_pending (K : Consts) (irq : Nat) :
    List ipipe_domain → Nat → Bool → State → Outcome
  | [], _, _, st => ⟨[], st⟩
  | next_domain :: rest, pos, m_ack, st =>
    let e := next_domain.irqs irq
    let handles := test_bit K.IPIPE_HANDLE_FLAG e.control
    let st1 := if handles then __ipipe_set_irq_pending pos irq st else st
    let ev1 := if handles then [Event.set_irq_pending pos irq] else []
    let acks := handles && !m_ack && e.acknowledge.isSome
    let ev2 :=
      match e.acknowledge with
      | some cb => if handles && !m_ack then [Event.acknowledge pos cb irq] else []
      | none => []
    if !test_bit K.IPIPE_PASS_FLAG e.control then
      ⟨ev1 ++ ev2, st1⟩
    else
      let r := mark_pending K irq rest (pos + 1) (m_ack || acks) st1
      ⟨ev1 ++ ev2 ++ r.trace, r.state⟩

/-- Lines 178-180: `if (!s) __clear_bit(IPIPE_STALL_FLAG, &status)`. -/
def restore_stall (K : Consts) (s : Int) (st : State) : Outcome :=
  if s = 0 then
    ⟨[Event.clear_stall],
     { st with root_status := clear_bit K.IPIPE_STALL_FLAG st.root_status }⟩
  else ⟨[], st⟩

/-- The label `finalize` (lines 174-180), reached from both paths with the
value of `s`: the walk of the pipeline from `head`, then the restoration of
the stall bit. -/
def finalize (K : Consts) (E : Env) (head : Nat) (s : Int) (st : State) : Outcome :=
  let st1 := E.walk_pipeline head st
  let r := restore_stall K s st1
  ⟨Event.walk_pipeline head :: r.trace, r.state⟩

/-- Lines 118-120 and 171-173: the root stage lock, taken when ROOTLOCK is set
in the flags of the root domain; `s` stays -1 otherwise. -/
def root_lock (K : Consts) (P : Pipeline) (st : State) : List Event × Int × State :=
  if test_bit K.IPIPE_ROOTLOCK_FLAG P.root_flags then
    ([Event.test_and_set_stall], (test_and_set_stall K st).1, (test_and_set_stall K st).2)
  else ([], -1, st)

/-- The generic path: the marking loop from `head`, the root stage lock, then
the walk and the restoration. -/
def generic_path (K : Consts) (E : Env) (P : Pipeline) (irq head : Nat)
    (m_ack : Bool) (st : State) : Outcome :=
  let m := mark_pending K irq (P.domains.drop head) head m_ack st
  let l := root_lock K P m.state
  let f := finalize K E head l.2.1 l.2.2
  ⟨m.trace ++ l.1 ++ f.trace, f.state⟩

/-- The wired path of lines 115-124: acknowledge, root stage lock, direct
dispatch to the head domain, then `goto finalize`. -/
def wired_path (K : Consts) (E : Env) (P : Pipeline) (irq : Nat)
    (m_ack : Bool) (st : State) : Outcome :=
  let next_domain := P.first
  let ev1 :=
    match (next_domain.irqs irq).acknowledge with
    | some cb => if !m_ack then [Event.acknowledge 0 cb irq] else []
    | none => []
  let l := root_lock K P st
  let st2 := E.dispatch_wired 0 irq l.2.2
  let f := finalize K E 0 l.2.1 st2
  ⟨ev1 ++ l.1 ++ Event.dispatch_wired 0 irq :: f.trace, f.state⟩

/-- The function `__ipipe_handle_irq(irq, regs)`; `regs` is `none` for a NULL
register frame. -/
def __ipipe_handle_irq (K : Consts) (E : Env) (P : Pipeline) (irq : Nat)
    (regs : Option Nat) (st : State) : Outcome :=
  let m_ack := regs.isNone || irq == K.IRQ_SYSTMR || irq == K.IRQ_CORETMR
  if test_bit K.IPIPE_STICKY_FLAG (P.this_domain.irqs irq).control then
    generic_path K E P irq P.this_pos m_ack st
  else if test_bit K.IPIPE_WIRED_FLAG (P.first.irqs irq).control then
    wired_path K E P irq m_ack st
  else
    generic_path K E P irq 0 m_ack st

/-- What `ipipe_trigger_irq` leaves: the returned value, the effects and the
state. -/
structure TriggerOutcome where
  ret : Int
  trace : List Event
  state : State

/-- Modelled from the spec: `local_irq_save_hw(flags)` is a macro of a header
that is not part of the file; the spec says it disables hardware interrupt
delivery and captures the prior state. Returns the captured flag and the new
state. -/
def local_irq_save_hw (st : State) : Bool × State :=
  (st.hw_irqs_on, { st with hw_irqs_on := false })

/-- Modelled from the spec: `local_irq_restore_hw(flags)` is a macro of a
header that is not part of the file; the spec says it restores the prior
state of hardware interrupt delivery. -/
def local_irq_restore_hw (flags : Bool) (st : State) : State :=
  { st with hw_irqs_on := flags }

/-- The function `ipipe_trigger_irq(irq)`. -/
def ipipe_trigger_irq (K : Consts) (E : Env) (P : Pipeline) (irq : Nat)
    (st : State) : TriggerOutcome :=
  if K.IPIPE_NR_IRQS ≤ irq ||
      (K.ipipe_virtual_irq_p irq &&
        !test_bit (usub32 irq K.IPIPE_VIRQ_BASE) st.virtual_irq_map) then
    ⟨-(K.EINVAL : Int), [], st⟩
  else
    let flags := (local_irq_save_hw st).1
    let r := __ipipe_handle_irq K E P irq none (local_irq_save_hw st).2
    ⟨1, Event.handle_irq irq true :: r.trace, local_irq_restore_hw flags r.state⟩

/-! ## The threaded-IRQ scheduler -/

/-- The fields of `struct irq_desc` used by the file. `thread` is `none` for
a NULL task pointer. -/
structure irq_desc where
  status : Nat
  depth : Nat
  ic_prio : Nat
  thr_prio : Nat
  thread : Option Nat
  thr_handler : Option Nat
  action : Option Nat

/-- The state the threaded-IRQ scheduler works on: the table `irq_desc[]` and
the per-CPU variables `pending_irqthread_mask` and `pending_irq_count[]`,
both indexed by the processor first. -/
structure IrqdState where
  irq_desc : Nat → irq_desc
  pending_irqthread_mask : Nat → Nat
  pending_irq_count : Nat → Nat → Int

/-- An effect of the threaded-IRQ scheduler. -/
inductive IrqdEvent where
  | wake_up_process (thread : Option Nat)
  | thr_handler (handler : Option Nat) (irq : Nat)
  | schedule
  deriving DecidableEq

/-- What a call of the scheduler leaves: its effects and the state. -/
structure IrqdOutcome where
  trace : List IrqdEvent
  state : IrqdState

/-- The function `kick_irqd(irq, cookie)` run on processor `cpu`
(`smp_processor_id()`); the cookie is not used. The counter is an `int` that
counts scheduled descriptors; it is taken without wrap-around. -/
def kick_irqd (K : Consts) (cpu irq : Nat) (st : IrqdState) : IrqdOutcome :=
  let desc := st.irq_desc irq
  let thrprio := desc.thr_prio
  let thrmask := 1 <<< thrprio
  if desc.status &&& K.IRQ_SCHEDULED = 0 then
    ⟨[IrqdEvent.wake_up_process desc.thread],
     { irq_desc := fun i =>
         if i = irq then { desc with status := desc.status ||| K.IRQ_SCHEDULED }
         else st.irq_desc i
       pending_irqthread_mask := fun c =>
         if c = cpu then st.pending_irqthread_mask cpu ||| thrmask
         else st.pending_irqthread_mask c
       pending_irq_count := fun c p =>
         if c = cpu ∧ p = thrprio then st.pending_irq_count cpu thrprio + 1
         else st.pending_irq_count c p }⟩
  else ⟨[], st⟩

/-- The effect of `n` consecutive calls of `kick_irqd(irq)` on processor
`cpu`, nothing else running in between. -/
def kick_irqd_times (K : Consts) (cpu irq : Nat) : Nat → IrqdState → IrqdOutcome
  | 0, st => ⟨[], st⟩
  | n + 1, st =>
    let r := kick_irqd K cpu irq st
    let r2 := kick_irqd_times K cpu irq n r.state
    ⟨r.trace ++ r2.trace, r2.state⟩

/-! ## Sample pipelines for the worked examples -/

/-- An entry of `irqs[]` with the given control word and acknowledge callback. -/
def entry (control : Nat) (ack : Option Nat) : IrqEntry := ⟨control, ack, some 0⟩

/-- A domain with the same entry for every IRQ. -/
def dom (control : Nat) (ack : Option Nat) : ipipe_domain := ⟨fun _ => entry control ack⟩

/-- A state with nothing pending, the root domain not stalled, hardware
interrupts on and no virtual IRQ allocated. -/
def st0 : State := ⟨fun _ _ => false, 0, true, 0⟩

/-- An environment whose walk and wired dispatch leave the state alone. -/
def E0 : Env := ⟨fun _ _ st => st, fun _ st => st⟩

/-! ## One iteration of the marking loop -/

/-- The effects of one iteration of the marking loop (lines 137-151) for the
domain `d` at position `pos`. -/
def step_events (K : Consts) (irq : Nat) (d : ipipe_domain) (pos : Nat) (m_ack : Bool) :
    List Event :=
  (if test_bit K.IPIPE_HANDLE_FLAG (d.irqs irq).control then
      [Event.set_irq_pending pos irq] else []) ++
    (match (d.irqs irq).acknowledge with
     | some cb =>
       if test_bit K.IPIPE_HANDLE_FLAG (d.irqs irq).control && !m_ack then
         [Event.acknowledge pos cb irq] else []
     | none => [])

/-- The state after one iteration of the marking loop. -/
def step_state (K : Consts) (irq : Nat) (d : ipipe_domain) (pos : Nat) (st : State) : State :=
  if test_bit K.IPIPE_HANDLE_FLAG (d.irqs irq).control then
    __ipipe_set_irq_pending pos irq st else st

/-- The value of `m_ack` after one iteration of the marking loop. -/
def step_ack (K : Consts) (irq : Nat) (d : ipipe_domain) (m_ack : Bool) : Bool :=
  m_ack || (test_bit K.IPIPE_HANDLE_FLAG (d.irqs irq).control && !m_ack &&
    (d.irqs irq).acknowledge.isSome)

/-- A domain without PASS ahead of the current domain does not stop an IRQ that
is sticky in the current domain. -/
def Pstick : Pipeline := ⟨[dom 1 none], dom 11 none, [], 0⟩


/-! ## Vocabulary of the statements about acknowledgment -/

/-- Whether an effect is the invocation of an acknowledge callback. -/
def is_ack : Event → Bool
  | Event.acknowledge _ _ _ => true
  | _ => false

/-- The reach of the PASS chain from the first domain of the list: the domains
up to and including the first one whose control word for the IRQ lacks PASS. -/
def pass_reach (K : Consts) (irq : Nat) : List ipipe_domain → List ipipe_domain
  | [] => []
  | d :: rest =>
    if test_bit K.IPIPE_PASS_FLAG (d.irqs irq).control then d :: pass_reach K irq rest
    else [d]

/-- The first domain, in pipeline order from position `head` and within the
reach of the PASS chain, that has HANDLE set for the IRQ and a non-null
acknowledge callback, with its position. -/
def first_acker (K : Consts) (irq : Nat) (L : List ipipe_domain) (head : Nat) :
    Option (Nat × ipipe_domain) :=
  ((pass_reach K irq L).enumFrom head).find? fun x =>
    test_bit K.IPIPE_HANDLE_FLAG (x.2.irqs irq).control && (x.2.irqs irq).acknowledge.isSome

/-- The invocation of the acknowledge callback of the domain found by
`first_acker`, if there is one. -/
def ack_of (irq : Nat) : Option (Nat × ipipe_domain) → List Event
  | some (pos, d) =>
    match (d.irqs irq).acknowledge with
    | some cb => [Event.acknowledge pos cb irq]
    | none => []
  | none => []

/-- The starting point of the walk: the current domain when the IRQ is sticky
in it, the head of the pipeline otherwise. -/
def start_pos (K : Consts) (P : Pipeline) (irq : Nat) : Nat :=
  if test_bit K.IPIPE_STICKY_FLAG (P.this_domain.irqs irq).control then P.this_pos else 0

/-- In a trace, every invocation of an acknowledge callback of a domain comes
after the IRQ was marked pending in that domain. -/
def AckAfterPending (l : List Event) : Prop :=
  ∀ pre post d cb i, l = pre ++ Event.acknowledge d cb i :: post →
    Event.set_irq_pending d i ∈ pre

/-! ## Nested calls -/

/-- The actions on the state that change the root stall bit only through calls
of `__ipipe_handle_irq` nested at most `n` deep: an action that leaves the
bit alone, two such actions in sequence, or a call of `__ipipe_handle_irq`
whose own walk and wired dispatch are such actions of depth `n`. -/
inductive NestedOnly (K : Consts) : Nat → (State → State) → Prop where
  | quiet (n : Nat) (f : State → State)
      (h : ∀ s, stalled K (f s) = stalled K s) : NestedOnly K n f
  | seq (n : Nat) (f g : State → State)
      (hf : NestedOnly K n f) (hg : NestedOnly K n g) : NestedOnly K n (fun s => g (f s))
  | nested (n : Nat) (E : Env) (P : Pipeline) (irq : Nat) (regs : Option Nat)
      (hd : ∀ d i, NestedOnly K n (E.dispatch_wired d i))
      (hw : ∀ h, NestedOnly K n (E.walk_pipeline h)) :
      NestedOnly K (n + 1) (fun s => (__ipipe_handle_irq K E P irq regs s).state)

/-- A pipeline of two domains, the head one wired, with ROOTLOCK set in the
flags of the root domain. -/
def Pwired : Pipeline := ⟨[dom 64 (some 7)], dom 3 (some 8), [], 4⟩

/-- A pipeline of two domains on the generic path, with ROOTLOCK set in the
flags of the root domain. -/
def Plock : Pipeline := ⟨[dom 3 (some 7)], dom 3 (some 8), [], 4⟩

/-- An environment whose walk runs a handler that re-enters
`__ipipe_handle_irq` for IRQ 3, that call nesting no further. -/
def E1 : Env := ⟨fun _ _ st => st, fun _ st => (__ipipe_handle_irq K0 E0 Plock 3 none st).state⟩

/-- Whether an effect is a call of `__ipipe_dispatch_wired`. -/
def is_dispatch : Event → Bool
  | Event.dispatch_wired _ _ => true
  | _ => false

/-- Whether acknowledgment is needed: `m_ack` is 0 after line 106. -/
def ack_needed (K : Consts) (irq : Nat) (regs : Option Nat) : Bool :=
  !(regs.isNone || irq == K.IRQ_SYSTMR || irq == K.IRQ_CORETMR)

/-- A descriptor table in which every IRQ is idle, of priority class 2, served
by thread 40. -/
def sd0 : IrqdState :=
  ⟨fun _ => ⟨0, 0, 2, 2, some 40, some 1, none⟩, fun _ => 0, fun _ _ => 0⟩

/-! ## The worker loop of `do_irqd` -/

/-- The C expression `w & ~m` on words. -/
def and_not (w m : Nat) : Nat := w ^^^ (w &&& m)

/-- The test of line 362 made by the worker of `irq` on processor `cpu`,
`pending_irqthread_mask & ~(thrmask|(thrmask-1))`: whether a priority class
above its own has its bit set in the pending mask. The worker reads
`thr_prio` once, before the loop; no function of the file writes that field,
so it is read from the descriptor here. -/
def higher_pending (cpu irq : Nat) (st : IrqdState) : Bool :=
  and_not (st.pending_irqthread_mask cpu)
    (1 <<< (st.irq_desc irq).thr_prio ||| (1 <<< (st.irq_desc irq).thr_prio - 1)) != 0

/-- Lines 364-367 of `do_irqd`: decrement the pending count of the class,
clear the bit of the class in the pending mask when the count reaches zero,
clear SCHEDULED, and run the deferred handler. The handler runs with the root
stage stalled and is recorded as an effect only. -/
def do_irqd_serve (K : Consts) (cpu irq : Nat) (st : IrqdState) : IrqdOutcome :=
  let desc := st.irq_desc irq
  let thrprio := desc.thr_prio
  let thrmask := 1 <<< thrprio
  let count := st.pending_irq_count cpu thrprio - 1
  ⟨[IrqdEvent.thr_handler desc.thr_handler irq],
   { irq_desc := fun i =>
       if i = irq then { desc with status := and_not desc.status K.IRQ_SCHEDULED }
       else st.irq_desc i
     pending_irqthread_mask := fun c =>
       if c = cpu then
         (if count = 0 then and_not (st.pending_irqthread_mask cpu) thrmask
          else st.pending_irqthread_mask cpu)
       else st.pending_irqthread_mask c
     pending_irq_count := fun c p =>
       if c = cpu ∧ p = thrprio then count else st.pending_irq_count c p }⟩

/-- Lines 355-367 of `do_irqd`, what the worker does when it runs: with a
higher class pending it goes to `resched` and calls `schedule()` again, having
changed nothing; otherwise it serves its IRQ. -/
def do_irqd_wake (K : Consts) (cpu irq : Nat) (st : IrqdState) : IrqdOutcome :=
  if higher_pending cpu irq st then ⟨[IrqdEvent.schedule], st⟩
  else do_irqd_serve K cpu irq st

/-- The code from the return of a call of `schedule()` to the end of the
iteration. `sched k` is what the rest of the system does to the state while
the worker is suspended, `k` suspensions being still allowed; the result is
`none` when the worker is still suspended after `fuel` returns of
`schedule()`. -/
def do_irqd_resched (K : Consts) (sched : Nat → IrqdState → IrqdState) (cpu irq : Nat) :
    Nat → IrqdState → Option IrqdOutcome
  | 0, _ => none
  | fuel + 1, st =>
    let r := do_irqd_wake K cpu irq (sched fuel st)
    if higher_pending cpu irq (sched fuel st) then
      (do_irqd_resched K sched cpu irq fuel r.state).map
        fun r2 => ⟨r.trace ++ r2.trace, r2.state⟩
    else some r

/-- One iteration of the `while` loop of `do_irqd` (lines 347-368) for the
worker of `irq` on processor `cpu`: it suspends first when the descriptor is
not SCHEDULED. -/
def do_irqd_pass (K : Consts) (sched : Nat → IrqdState → IrqdState) (cpu irq : Nat)
    (fuel : Nat) (st : IrqdState) : Option IrqdOutcome :=
  if (st.irq_desc irq).status &&& K.IRQ_SCHEDULED = 0 then
    (do_irqd_resched K sched cpu irq fuel st).map
      fun r2 => ⟨IrqdEvent.schedule :: r2.trace, r2.state⟩
  else
    let r := do_irqd_wake K cpu irq st
    if higher_pending cpu irq st then
      (do_irqd_resched K sched cpu irq fuel r.state).map
        fun r2 => ⟨r.trace ++ r2.trace, r2.state⟩
    else some r

/-- A state in which IRQ 9, of class 2, is SCHEDULED while class 3 is pending
too on every processor. -/
def sd1 : IrqdState :=
  ⟨fun _ => ⟨1024, 0, 2, 2, some 40, some 1, none⟩, fun _ => 12, fun _ _ => 1⟩

/-! ## Interleavings of kicks and worker passes on one processor -/

/-- A step of the deferral machinery on one processor: a call of `kick_irqd`
for an IRQ, or the worker of an IRQ getting to run (lines 355-367). -/
inductive IrqdOp where
  | kick (irq : Nat)
  | pass (irq : Nat)
  deriving DecidableEq

/-- The state after one step on processor `cpu`. -/
def irqd_step (K : Consts) (cpu : Nat) : IrqdOp → IrqdState → IrqdState
  | IrqdOp.kick irq, st => (kick_irqd K cpu irq st).state
  | IrqdOp.pass irq, st => (do_irqd_wake K cpu irq st).state

/-- The state after the steps of the list, in order. -/
def irqd_run (K : Consts) (cpu : Nat) : List IrqdOp → IrqdState → IrqdState
  | [], st => st
  | op :: rest, st => irqd_run K cpu rest (irqd_step K cpu op st)

/-- An interleaving over the `n` descriptors of the table in which the worker
of an IRQ runs only while the descriptor is SCHEDULED, that is after a
`kick_irqd` that scheduled it and before the worker has served it. -/
def Admissible (K : Consts) (cpu n : Nat) : List IrqdOp → IrqdState → Prop
  | [], _ => True
  | IrqdOp.kick irq :: rest, st =>
    irq < n ∧ Admissible K cpu n rest (irqd_step K cpu (IrqdOp.kick irq) st)
  | IrqdOp.pass irq :: rest, st =>
    irq < n ∧ (st.irq_desc irq).status &&& K.IRQ_SCHEDULED ≠ 0 ∧
      Admissible K cpu n rest (irqd_step K cpu (IrqdOp.pass irq) st)

/-- Whether the descriptor of `irq` is of class `p` and SCHEDULED. -/
def scheduled_in_class (K : Consts) (p : Nat) (st : IrqdState) (irq : Nat) : Bool :=
  decide ((st.irq_desc irq).thr_prio = p) &&
    decide ((st.irq_desc irq).status &&& K.IRQ_SCHEDULED ≠ 0)

/-- The number of descriptors of class `p`, among the `n` of the table, whose
SCHEDULED flag is set. -/
def scheduled_count (K : Consts) (n p : Nat) (st : IrqdState) : Nat :=
  (List.range n).countP (scheduled_in_class K p st)

/-- The bookkeeping invariant on processor `cpu`: each pending count is the
number of SCHEDULED descriptors of the class, and a mask bit is set exactly
when the count of the class is positive. -/
def Bookkeeping (K : Consts) (cpu n : Nat) (st : IrqdState) : Prop :=
  ∀ p, st.pending_irq_count cpu p = (scheduled_count K n p st : Int) ∧
    (test_bit p (st.pending_irqthread_mask cpu) = true ↔ 0 < st.pending_irq_count cpu p)

/-! ## Starting the IRQ threads -/

/-- The state `ipipe_start_irq_thread` works on: the flag
`create_irq_threads`, the table `irq_desc[]`, and the handlers
`ipipe_root_domain->irqs[].handler` of the root domain. A handler is `none`
for NULL and `some a` for the function at address `a`. -/
structure ThreadState where
  create_irq_threads : Nat
  irq_desc : Nat → irq_desc
  root_handler : Nat → Option Nat

/-- Constants of `ipipe_start_irq_thread` that the embedding takes as
parameters: the error number `ENOMEM` of a header, and the address
`&kick_irqd`. -/
structure ThreadConsts where
  ENOMEM : Nat
  kick_irqd : Nat

/-- An effect of `ipipe_start_irq_thread`. -/
inductive ThreadEvent where
  | kthread_create (irq desc : Nat)
  | printk (irq : Nat)
  | wake_up_process (thread : Option Nat)
  deriving DecidableEq

/-- What `ipipe_start_irq_thread` leaves: the returned value, the effects and
the state. -/
structure ThreadOutcome where
  ret : Int
  trace : List ThreadEvent
  state : ThreadState

/-- The function `ipipe_start_irq_thread(irq, desc)`; `desc` is the index in
`irq_desc[]` of the descriptor pointed to, and `created` is what
`kthread_create` returns if it is called: `none` for NULL, `some p` for the
pointer of value `p`, be it a task or an error pointer. -/
def ipipe_start_irq_thread (T : ThreadConsts) (created : Option Nat) (irq desc : Nat)
    (st : ThreadState) : ThreadOutcome :=
  if (st.irq_desc desc).thread.isSome || st.create_irq_threads == 0 then
    ⟨0, [], st⟩
  else
    let st1 : ThreadState :=
      { st with irq_desc := fun i =>
          if i = desc then { st.irq_desc desc with thread := created } else st.irq_desc i }
    match created with
    | none =>
      ⟨-(T.ENOMEM : Int), [ThreadEvent.kthread_create irq desc, ThreadEvent.printk irq], st1⟩
    | some t =>
      ⟨0, [ThreadEvent.kthread_create irq desc, ThreadEvent.wake_up_process (some t)],
       { st1 with
         irq_desc := fun i =>
           if i = desc then { st1.irq_desc desc with thr_handler := st1.root_handler irq }
           else st1.irq_desc i
         root_handler := fun i =>
           if i = irq then some T.kick_irqd else st1.root_handler i }⟩

/-- Sample constants: `ENOMEM` is 12, `kick_irqd` is at address 500. -/
def T0 : ThreadConsts := ⟨12, 500⟩

/-- A state with thread creation enabled, no descriptor threaded, the root
domain handling every IRQ with the function at address 77. -/
def ts0 : ThreadState :=
  ⟨1, fun _ => ⟨0, 0, 2, 2, none, none, some 5⟩, fun _ => some 77⟩

/-- The kernel's `ERR_PTR(-errno)`: the pointer whose value is `-errno` as a
32-bit word. It is how `kthread_create` reports that it could not create the
thread, and it is not the NULL pointer. -/
def ERR_PTR (errno : Nat) : Nat := usub32 0 errno

/-! ## Enable and disable accounting -/

/-- The state `__ipipe_enable_irqdesc` and `__ipipe_disable_irqdesc` work on:
the table `irq_desc[]`, the counters `__ipipe_irq_lvdepth[]` and the mask
`__ipipe_irq_lvmask`. -/
structure LvState where
  irq_desc : Nat → irq_desc
  __ipipe_irq_lvdepth : Nat → Int
  __ipipe_irq_lvmask : Nat

/-- The function `__ipipe_enable_irqdesc(ipd, irq)`; `ipipe_root` is the
address `&ipipe_root` the domain pointer is compared with. The counter is an
`atomic_t`, taken without wrap-around. -/
def __ipipe_enable_irqdesc (ipipe_root ipd irq : Nat) (st : LvState) : LvState :=
  let prio := (st.irq_desc irq).ic_prio
  let st1 : LvState :=
    { st with irq_desc := fun i =>
        if i = irq then { st.irq_desc irq with depth := 0 } else st.irq_desc i }
  if ipd ≠ ipipe_root then
    let st2 : LvState :=
      { st1 with __ipipe_irq_lvdepth := fun p =>
          if p = prio then st.__ipipe_irq_lvdepth prio + 1 else st.__ipipe_irq_lvdepth p }
    if st.__ipipe_irq_lvdepth prio + 1 = 1 then
      { st2 with __ipipe_irq_lvmask := set_bit prio st.__ipipe_irq_lvmask }
    else st2
  else st1

/-- The function `__ipipe_disable_irqdesc(ipd, irq)`. -/
def __ipipe_disable_irqdesc (ipipe_root ipd irq : Nat) (st : LvState) : LvState :=
  let prio := (st.irq_desc irq).ic_prio
  if ipd ≠ ipipe_root then
    let st2 : LvState :=
      { st with __ipipe_irq_lvdepth := fun p =>
          if p = prio then st.__ipipe_irq_lvdepth prio - 1 else st.__ipipe_irq_lvdepth p }
    if st.__ipipe_irq_lvdepth prio - 1 = 0 then
      { st2 with __ipipe_irq_lvmask := clear_bit prio st.__ipipe_irq_lvmask }
    else st2
  else st

/-- A call of one of the two accounting functions. -/
inductive LvOp where
  | enable (ipd irq : Nat)
  | disable (ipd irq : Nat)
  deriving DecidableEq

/-- The state after one call. -/
def lv_step (ipipe_root : Nat) : LvOp → LvState → LvState
  | LvOp.enable ipd irq, st => __ipipe_enable_irqdesc ipipe_root ipd irq st
  | LvOp.disable ipd irq, st => __ipipe_disable_irqdesc ipipe_root ipd irq st

/-- The state after the calls of the list, in order. -/
def lv_run (ipipe_root : Nat) : List LvOp → LvState → LvState
  | [], st => st
  | op :: rest, st => lv_run ipipe_root rest (lv_step ipipe_root op st)

/-- A state with every counter at 0 and an empty mask; every IRQ is of
priority class 7 and has a depth field of 3. -/
def lv0 : LvState := ⟨fun _ => ⟨0, 3, 7, 2, none, none, none⟩, fun _ => 0, 0⟩

/-! ## Vocabulary of the statements about the trace of a trigger -/

/-- Whether an effect is a call of `__ipipe_handle_irq`. -/
def is_handle_call : Event → Bool
  | Event.handle_irq _ _ => true
  | _ => false

/-- Whether an effect is a call of `__ipipe_walk_pipeline`. -/
def is_walk : Event → Bool
  | Event.walk_pipeline _ => true
  | _ => false

/-- A pipeline of three domains; IRQ handling is sticky in the current domain,
at position 1, while the head domain is wired. -/
def Pstick2 : Pipeline := ⟨[dom 67 (some 7)], dom 11 (some 8), [dom 3 (some 9)], 0⟩

/-- A state in which the virtual IRQ 70 is allocated and hardware interrupts
are on. -/
def stv : State := ⟨fun _ _ => false, 0, true, 64⟩
/-! ## Bit lemmas -/

theorem test_bit_set_bit_self (n w : Nat) : test_bit n (set_bit n w) = true := by
  simp [test_bit, set_bit, Nat.testBit_or, Nat.testBit_shiftLeft]

theorem test_bit_clear_bit_self (n w : Nat) : test_bit n (clear_bit n w) = false := by
  simp [test_bit, clear_bit, Nat.testBit_xor, Nat.testBit_and, Nat.testBit_shiftLeft]

/-! ## Invalid triggers -/

/-- C1: when `irq >= IPIPE_NR_IRQS`, or `irq` is a virtual IRQ whose bit
`irq - IPIPE_VIRQ_BASE` is clear in the allocation map, `ipipe_trigger_irq`
returns `-EINVAL`, performs no effect (it does not call `__ipipe_handle_irq`)
and leaves the whole state as it was. -/
theorem ipipe_trigger_irq_invalid (K : Consts) (E : Env) (P : Pipeline) (irq : Nat)
    (st : State)
    (h : K.IPIPE_NR_IRQS ≤ irq ∨
      (K.ipipe_virtual_irq_p irq = true ∧
        test_bit (usub32 irq K.IPIPE_VIRQ_BASE) st.virtual_irq_map = false)) :
    (ipipe_trigger_irq K E P irq st).ret = -(K.EINVAL : Int) ∧
    (ipipe_trigger_irq K E P irq st).trace = [] ∧
    (∀ i r, Event.handle_irq i r ∉ (ipipe_trigger_irq K E P irq st).trace) ∧
    (ipipe_trigger_irq K E P irq st).state = st := by
  have hc : (decide (K.IPIPE_NR_IRQS ≤ irq) ||
      (K.ipipe_virtual_irq_p irq &&
        !test_bit (usub32 irq K.IPIPE_VIRQ_BASE) st.virtual_irq_map)) = true := by
    rcases h with h | ⟨h1, h2⟩
    · simp [h]
    · simp [h1, h2]
  simp [ipipe_trigger_irq, hc]

theorem ipipe_trigger_irq_invalid_witness :
    (ipipe_trigger_irq K0 E0 ⟨[], dom 3 none, [], 0⟩ 70 st0).ret = -(K0.EINVAL : Int) ∧
    (ipipe_trigger_irq K0 E0 ⟨[], dom 3 none, [], 0⟩ 70 st0).trace = [] ∧
    (∀ i r, Event.handle_irq i r ∉
      (ipipe_trigger_irq K0 E0 ⟨[], dom 3 none, [], 0⟩ 70 st0).trace) ∧
    (ipipe_trigger_irq K0 E0 ⟨[], dom 3 none, [], 0⟩ 70 st0).state = st0 :=
  ipipe_trigger_irq_invalid K0 E0 ⟨[], dom 3 none, [], 0⟩ 70 st0
    (Or.inr ⟨by decide, by decide⟩)

theorem mark_pending_cons (K : Consts) (irq : Nat) (d : ipipe_domain)
    (rest : List ipipe_domain) (pos : Nat) (m_ack : Bool) (st : State) :
    mark_pending K irq (d :: rest) pos m_ack st =
      if test_bit K.IPIPE_PASS_FLAG (d.irqs irq).control = true then
        ⟨step_events K irq d pos m_ack ++
          (mark_pending K irq rest (pos + 1) (step_ack K irq d m_ack)
            (step_state K irq d pos st)).trace,
         (mark_pending K irq rest (pos + 1) (step_ack K irq d m_ack)
            (step_state K irq d pos st)).state⟩
      else ⟨step_events K irq d pos m_ack, step_state K irq d pos st⟩ := by
  cases hP : test_bit K.IPIPE_PASS_FLAG (d.irqs irq).control <;>
    simp [mark_pending, hP, step_events, step_state, step_ack]

theorem set_mem_step_events (K : Consts) (irq : Nat) (d : ipipe_domain) (pos : Nat)
    (m_ack : Bool) (j i : Nat) :
    Event.set_irq_pending j i ∈ step_events K irq d pos m_ack ↔
      j = pos ∧ i = irq ∧ test_bit K.IPIPE_HANDLE_FLAG (d.irqs irq).control = true := by
  cases hH : test_bit K.IPIPE_HANDLE_FLAG (d.irqs irq).control <;>
    cases hA : (d.irqs irq).acknowledge <;> cases m_ack <;>
    simp [step_events, hH, hA]

theorem ack_mem_step_events (K : Consts) (irq : Nat) (d : ipipe_domain) (pos : Nat)
    (m_ack : Bool) (j cb i : Nat) :
    Event.acknowledge j cb i ∈ step_events K irq d pos m_ack ↔
      j = pos ∧ i = irq ∧ test_bit K.IPIPE_HANDLE_FLAG (d.irqs irq).control = true ∧
        m_ack = false ∧ (d.irqs irq).acknowledge = some cb := by
  cases hH : test_bit K.IPIPE_HANDLE_FLAG (d.irqs irq).control <;>
    cases hA : (d.irqs irq).acknowledge <;> cases m_ack <;>
    simp [step_events, hH, hA]
  all_goals tauto

theorem mark_pending_set_mem (K : Consts) (irq : Nat) (L : List ipipe_domain) :
    ∀ (pos : Nat) (m_ack : Bool) (st : State) (j i : Nat),
      Event.set_irq_pending j i ∈ (mark_pending K irq L pos m_ack st).trace →
      i = irq ∧ pos ≤ j ∧ ∃ d, L[j - pos]? = some d ∧
        test_bit K.IPIPE_HANDLE_FLAG (d.irqs irq).control = true ∧
        ∀ k d2, k < j - pos → L[k]? = some d2 →
          test_bit K.IPIPE_PASS_FLAG (d2.irqs irq).control = true := by
  induction L with
  | nil => intro pos m_ack st j i h; simp [mark_pending] at h
  | cons d rest ih =>
    intro pos m_ack st j i h
    rw [mark_pending_cons] at h
    have here : Event.set_irq_pending j i ∈ step_events K irq d pos m_ack →
        i = irq ∧ pos ≤ j ∧ ∃ d1, (d :: rest)[j - pos]? = some d1 ∧
        test_bit K.IPIPE_HANDLE_FLAG (d1.irqs irq).control = true ∧
        ∀ k d2, k < j - pos → (d :: rest)[k]? = some d2 →
          test_bit K.IPIPE_PASS_FLAG (d2.irqs irq).control = true := by
      intro h1
      obtain ⟨rfl, rfl, hH⟩ := (set_mem_step_events K irq d pos m_ack j i).1 h1
      exact ⟨rfl, le_refl _, d, by simp, hH, by intro k d2 hk; simp at hk⟩
    split at h
    next hP =>
      rcases List.mem_append.1 h with h1 | h2
      · exact here h1
      · obtain ⟨hi, hle, d1, hd1, hH, hall⟩ := ih _ _ _ _ _ h2
        have e : j - pos = (j - (pos + 1)) + 1 := by omega
        refine ⟨hi, by omega, d1, ?_, hH, ?_⟩
        · rw [e]; simpa using hd1
        · intro k d2 hk hk2
          cases k with
          | zero => simp at hk2; subst hk2; exact hP
          | succ k => exact hall k d2 (by omega) (by simpa using hk2)
    next hP => exact here h

/-! ## Shape of the trace of a call -/

theorem mem_restore_stall (K : Consts) (s : Int) (st : State) (e : Event)
    (h : e ∈ (restore_stall K s st).trace) : e = Event.clear_stall := by
  unfold restore_stall at h
  split at h <;> simp at h
  exact h

theorem mem_root_lock (K : Consts) (P : Pipeline) (st : State) (e : Event)
    (h : e ∈ (root_lock K P st).1) : e = Event.test_and_set_stall := by
  unfold root_lock at h
  split at h <;> simp at h
  exact h

theorem mem_finalize (K : Consts) (E : Env) (head : Nat) (s : Int) (st : State) (e : Event)
    (h : e ∈ (finalize K E head s st).trace) :
    e = Event.walk_pipeline head ∨ e = Event.clear_stall := by
  simp only [finalize, List.mem_cons] at h
  rcases h with h | h
  · exact Or.inl h
  · exact Or.inr (mem_restore_stall K s _ e h)

theorem mem_generic_path (K : Consts) (E : Env) (P : Pipeline) (irq head : Nat)
    (m_ack : Bool) (st : State) (e : Event)
    (h : e ∈ (generic_path K E P irq head m_ack st).trace) :
    e ∈ (mark_pending K irq (P.domains.drop head) head m_ack st).trace ∨
      e = Event.test_and_set_stall ∨ e = Event.walk_pipeline head ∨
      e = Event.clear_stall := by
  simp only [generic_path, List.mem_append] at h
  rcases h with (h | h) | h
  · exact Or.inl h
  · exact Or.inr (Or.inl (mem_root_lock K P _ e h))
  · exact Or.inr (Or.inr (mem_finalize K E head _ _ e h))

theorem mem_wired_path (K : Consts) (E : Env) (P : Pipeline) (irq : Nat)
    (m_ack : Bool) (st : State) (e : Event)
    (h : e ∈ (wired_path K E P irq m_ack st).trace) :
    (∃ cb, e = Event.acknowledge 0 cb irq ∧ m_ack = false ∧
        (P.first.irqs irq).acknowledge = some cb) ∨
      e = Event.test_and_set_stall ∨ e = Event.dispatch_wired 0 irq ∨
      e = Event.walk_pipeline 0 ∨ e = Event.clear_stall := by
  simp only [wired_path, List.mem_append, List.mem_cons] at h
  rcases h with (h | h) | h | h
  · left
    cases hA : (P.first.irqs irq).acknowledge with
    | none => simp [hA] at h
    | some cb =>
      cases m_ack <;> simp [hA] at h
      exact ⟨cb, h, rfl, rfl⟩
  · exact Or.inr (Or.inl (mem_root_lock K P _ e h))
  · exact Or.inr (Or.inr (Or.inl h))
  · exact Or.inr (Or.inr (Or.inr (mem_finalize K E 0 _ _ e h)))

/-- The three paths of `__ipipe_handle_irq`. -/
theorem handle_irq_cases (K : Consts) (E : Env) (P : Pipeline) (irq : Nat)
    (regs : Option Nat) (st : State) :
    (test_bit K.IPIPE_STICKY_FLAG (P.this_domain.irqs irq).control = true ∧
      __ipipe_handle_irq K E P irq regs st =
        generic_path K E P irq P.this_pos
          (regs.isNone || irq == K.IRQ_SYSTMR || irq == K.IRQ_CORETMR) st) ∨
    (test_bit K.IPIPE_STICKY_FLAG (P.this_domain.irqs irq).control = false ∧
      test_bit K.IPIPE_WIRED_FLAG (P.first.irqs irq).control = true ∧
      __ipipe_handle_irq K E P irq regs st =
        wired_path K E P irq
          (regs.isNone || irq == K.IRQ_SYSTMR || irq == K.IRQ_CORETMR) st) ∨
    (test_bit K.IPIPE_STICKY_FLAG (P.this_domain.irqs irq).control = false ∧
      test_bit K.IPIPE_WIRED_FLAG (P.first.irqs irq).control = false ∧
      __ipipe_handle_irq K E P irq regs st =
        generic_path K E P irq 0
          (regs.isNone || irq == K.IRQ_SYSTMR || irq == K.IRQ_CORETMR) st) := by
  cases hS : test_bit K.IPIPE_STICKY_FLAG (P.this_domain.irqs irq).control <;>
    cases hW : test_bit K.IPIPE_WIRED_FLAG (P.first.irqs irq).control <;>
    simp [__ipipe_handle_irq, hS, hW]

/-- Every `set_irq_pending` of a call comes from its marking loop, started at
position 0 or at the current domain. -/
theorem set_mem_handle_irq (K : Consts) (E : Env) (P : Pipeline) (irq : Nat)
    (regs : Option Nat) (st : State) (j i : Nat)
    (h : Event.set_irq_pending j i ∈ (__ipipe_handle_irq K E P irq regs st).trace) :
    ∃ head m_ack,
      (head = 0 ∨ (head = P.this_pos ∧
        test_bit K.IPIPE_STICKY_FLAG (P.this_domain.irqs irq).control = true)) ∧
      Event.set_irq_pending j i ∈
        (mark_pending K irq (P.domains.drop head) head m_ack st).trace := by
  rcases handle_irq_cases K E P irq regs st with ⟨hS, e⟩ | ⟨_, _, e⟩ | ⟨_, _, e⟩
  · rw [e] at h
    rcases mem_generic_path _ _ _ _ _ _ _ _ h with h | h | h | h
    · exact ⟨_, _, Or.inr ⟨rfl, hS⟩, h⟩
    all_goals simp at h
  · rw [e] at h
    rcases mem_wired_path _ _ _ _ _ _ _ h with ⟨cb, h, _⟩ | h | h | h | h
    all_goals simp at h
  · rw [e] at h
    rcases mem_generic_path _ _ _ _ _ _ _ _ h with h | h | h | h
    · exact ⟨_, _, Or.inl rfl, h⟩
    all_goals simp at h

/-- C2, as stated, fails: with the domain at position 0 lacking PASS for IRQ 5
and the current domain at position 1 having STICKY and HANDLE for it, the call
marks IRQ 5 pending in the domain at position 1. -/
theorem propagation_stop_sticky_counterexample :
    (Pstick.domains[0]?.map
        fun D => test_bit K0.IPIPE_PASS_FLAG (D.irqs 5).control) = some false ∧
      0 < 1 ∧
      Event.set_irq_pending 1 5 ∈
        (__ipipe_handle_irq K0 E0 Pstick 5 (some 0) st0).trace := by
  decide

/-- C2 (amended): if the walk starts at or before a domain `D` (the IRQ is not
sticky in the current domain, or `D` is the current domain or comes after it)
and the control word of `D` for the IRQ lacks PASS, then the call marks the
IRQ pending in no domain that comes after `D` in the pipeline. -/
theorem handle_irq_propagation_stop (K : Consts) (E : Env) (P : Pipeline) (irq : Nat)
    (regs : Option Nat) (st : State) (i j : Nat) (D : ipipe_domain)
    (hD : P.domains[i]? = some D)
    (hP : test_bit K.IPIPE_PASS_FLAG (D.irqs irq).control = false)
    (hstart : test_bit K.IPIPE_STICKY_FLAG (P.this_domain.irqs irq).control = false ∨
      P.this_pos ≤ i)
    (hij : i < j) :
    Event.set_irq_pending j irq ∉ (__ipipe_handle_irq K E P irq regs st).trace := by
  intro h
  obtain ⟨head, m_ack, hhead, hm⟩ := set_mem_handle_irq K E P irq regs st j irq h
  have hle : head ≤ i := by
    rcases hhead with rfl | ⟨rfl, hS⟩
    · exact Nat.zero_le _
    · rcases hstart with h1 | h1
      · rw [hS] at h1; cases h1
      · exact h1
  obtain ⟨_, _, _, _, _, hall⟩ := mark_pending_set_mem K irq _ head m_ack st j irq hm
  have := hall (i - head) D (by omega) (by
    rw [List.getElem?_drop]
    rw [← hD]; congr 1; omega)
  rw [hP] at this
  cases this

theorem handle_irq_propagation_stop_witness :
    Event.set_irq_pending 1 5 ∉
      (__ipipe_handle_irq K0 E0 ⟨[], dom 1 (some 9), [dom 3 none], 0⟩ 5 (some 0) st0).trace :=
  handle_irq_propagation_stop K0 E0 ⟨[], dom 1 (some 9), [dom 3 none], 0⟩ 5 (some 0) st0
    0 1 (dom 1 (some 9)) rfl (by decide) (Or.inl (by decide)) (by decide)

/-! ## Acknowledgment is skipped when not needed -/

theorem mark_pending_acked_no_ack (K : Consts) (irq : Nat) (L : List ipipe_domain) :
    ∀ (pos : Nat) (st : State) (j cb i : Nat),
      Event.acknowledge j cb i ∉ (mark_pending K irq L pos true st).trace := by
  induction L with
  | nil => intro pos st j cb i h; simp [mark_pending] at h
  | cons d rest ih =>
    intro pos st j cb i h
    rw [mark_pending_cons] at h
    have hs : step_ack K irq d true = true := by simp [step_ack]
    have here : Event.acknowledge j cb i ∉ step_events K irq d pos true := by
      intro h1
      have := (ack_mem_step_events K irq d pos true j cb i).1 h1
      simp at this
    split at h
    · rcases List.mem_append.1 h with h1 | h2
      · exact here h1
      · rw [hs] at h2; exact ih _ _ _ _ _ h2
    · exact here h

/-- C5: when `regs` is NULL, or the IRQ is `IRQ_SYSTMR` or `IRQ_CORETMR`,
`__ipipe_handle_irq` invokes no acknowledge callback of any domain, whatever
path it takes; so no dispatch made by `ipipe_trigger_irq` acknowledges. -/
theorem no_ack_when_not_needed (K : Consts) (E : Env) (P : Pipeline) (irq : Nat)
    (st : State) :
    (∀ regs : Option Nat, regs = none ∨ irq = K.IRQ_SYSTMR ∨ irq = K.IRQ_CORETMR →
      ∀ d cb i, Event.acknowledge d cb i ∉ (__ipipe_handle_irq K E P irq regs st).trace) ∧
    (∀ d cb i, Event.acknowledge d cb i ∉ (ipipe_trigger_irq K E P irq st).trace) := by
  have main : ∀ (regs : Option Nat) (s : State),
      regs = none ∨ irq = K.IRQ_SYSTMR ∨ irq = K.IRQ_CORETMR →
      ∀ d cb i, Event.acknowledge d cb i ∉ (__ipipe_handle_irq K E P irq regs s).trace := by
    intro regs s hm d cb i h
    have hm2 : (regs.isNone || irq == K.IRQ_SYSTMR || irq == K.IRQ_CORETMR) = true := by
      rcases hm with h1 | h1 | h1 <;> simp [h1]
    rcases handle_irq_cases K E P irq regs s with ⟨_, e⟩ | ⟨_, _, e⟩ | ⟨_, _, e⟩
    · rw [e, hm2] at h
      rcases mem_generic_path _ _ _ _ _ _ _ _ h with h | h | h | h
      · exact mark_pending_acked_no_ack _ _ _ _ _ _ _ _ h
      all_goals simp at h
    · rw [e, hm2] at h
      rcases mem_wired_path _ _ _ _ _ _ _ h with ⟨_, _, h, _⟩ | h | h | h | h
      all_goals simp at h
    · rw [e, hm2] at h
      rcases mem_generic_path _ _ _ _ _ _ _ _ h with h | h | h | h
      · exact mark_pending_acked_no_ack _ _ _ _ _ _ _ _ h
      all_goals simp at h
  refine ⟨fun regs => main regs st, ?_⟩
  intro d cb i h
  unfold ipipe_trigger_irq at h
  split at h
  · simp at h
  · simp only [List.mem_cons] at h
    rcases h with h | h
    · cases h
    · exact main none _ (Or.inl rfl) d cb i h

theorem no_ack_when_not_needed_witness :
    Event.acknowledge 0 9 6 ∉
      (__ipipe_handle_irq K0 E0 ⟨[], dom 3 (some 9), [], 0⟩ 6 (some 0) st0).trace :=
  (no_ack_when_not_needed K0 E0 ⟨[], dom 3 (some 9), [], 0⟩ 6 st0).1 (some 0)
    (Or.inr (Or.inr rfl)) 0 9 6

/-! ## Pending bits and HANDLE -/

theorem mark_pending_irqpend (K : Consts) (irq : Nat) (L : List ipipe_domain) :
    ∀ (pos : Nat) (m_ack : Bool) (st : State) (d i : Nat),
      (mark_pending K irq L pos m_ack st).state.irqpend d i = true ↔
        st.irqpend d i = true ∨
          Event.set_irq_pending d i ∈ (mark_pending K irq L pos m_ack st).trace := by
  induction L with
  | nil => intro pos m_ack st d i; simp [mark_pending]
  | cons D rest ih =>
    intro pos m_ack st d i
    have hstep : (step_state K irq D pos st).irqpend d i = true ↔
        st.irqpend d i = true ∨ Event.set_irq_pending d i ∈ step_events K irq D pos m_ack := by
      rw [set_mem_step_events]
      unfold step_state __ipipe_set_irq_pending
      cases hH : test_bit K.IPIPE_HANDLE_FLAG (D.irqs irq).control
      · simp
      · by_cases hd : d = pos ∧ i = irq
        · simp [hd]
        · simp only [if_true]
          simp only [if_neg hd]
          constructor
          · intro h; exact Or.inl h
          · rintro (h | ⟨h1, h2, _⟩)
            · exact h
            · exact absurd ⟨h1, h2⟩ hd
    rw [mark_pending_cons]
    split
    · simp only [List.mem_append]
      rw [ih, hstep]
      tauto
    · exact hstep

theorem mark_pending_root_status (K : Consts) (irq : Nat) (L : List ipipe_domain) :
    ∀ (pos : Nat) (m_ack : Bool) (st : State),
      (mark_pending K irq L pos m_ack st).state.root_status = st.root_status := by
  induction L with
  | nil => intro pos m_ack st; simp [mark_pending]
  | cons D rest ih =>
    intro pos m_ack st
    have hstep : (step_state K irq D pos st).root_status = st.root_status := by
      unfold step_state __ipipe_set_irq_pending
      split <;> rfl
    rw [mark_pending_cons]
    split
    · simp only []
      rw [ih, hstep]
    · exact hstep

/-- C8: every domain in which a call of `__ipipe_handle_irq` sets a pending
bit has HANDLE set in its control word for the IRQ, and the bit set is that of
the IRQ; and the marking loop, wherever it starts, leaves the pending bits of
a domain without HANDLE for the IRQ as they were. -/
theorem pending_only_with_handle (K : Consts) (E : Env) (P : Pipeline) (irq : Nat)
    (regs : Option Nat) (st : State) :
    (∀ d i, Event.set_irq_pending d i ∈ (__ipipe_handle_irq K E P irq regs st).trace →
      i = irq ∧ ∃ D, P.domains[d]? = some D ∧
        test_bit K.IPIPE_HANDLE_FLAG (D.irqs irq).control = true) ∧
    (∀ (head : Nat) (m_ack : Bool) (d : Nat) (D : ipipe_domain),
      P.domains[d]? = some D →
      test_bit K.IPIPE_HANDLE_FLAG (D.irqs irq).control = false →
      ∀ i, (mark_pending K irq (P.domains.drop head) head m_ack st).state.irqpend d i =
        st.irqpend d i) := by
  have key : ∀ (head : Nat) (m_ack : Bool) (d i : Nat),
      Event.set_irq_pending d i ∈
        (mark_pending K irq (P.domains.drop head) head m_ack st).trace →
      i = irq ∧ ∃ D, P.domains[d]? = some D ∧
        test_bit K.IPIPE_HANDLE_FLAG (D.irqs irq).control = true := by
    intro head m_ack d i h
    obtain ⟨hi, hle, D, hD, hH, _⟩ := mark_pending_set_mem K irq _ head m_ack st d i h
    refine ⟨hi, D, ?_, hH⟩
    rw [List.getElem?_drop] at hD
    rw [← hD]; congr 1; omega
  constructor
  · intro d i h
    obtain ⟨head, m_ack, _, hm⟩ := set_mem_handle_irq K E P irq regs st d i h
    exact key head m_ack d i hm
  · intro head m_ack d D hD hH i
    have hiff := mark_pending_irqpend K irq (P.domains.drop head) head m_ack st d i
    cases hb : st.irqpend d i
    · cases ha : (mark_pending K irq (P.domains.drop head) head m_ack st).state.irqpend d i
      · rfl
      · rcases hiff.1 ha with h1 | h1
        · rw [hb] at h1; cases h1
        · obtain ⟨_, D2, hD2, hH2⟩ := key head m_ack d i h1
          rw [hD] at hD2
          cases hD2
          rw [hH] at hH2
          cases hH2
    · exact hiff.2 (Or.inl hb)

theorem pending_only_with_handle_witness :
    5 = 5 ∧ ∃ D, (Pipeline.domains ⟨[], dom 3 (some 9), [dom 3 none], 0⟩)[1]? = some D ∧
      test_bit K0.IPIPE_HANDLE_FLAG (D.irqs 5).control = true :=
  (pending_only_with_handle K0 E0 ⟨[], dom 3 (some 9), [dom 3 none], 0⟩ 5 (some 0) st0).1
    1 5 (by decide)

/-! ## Acknowledge once, by the first domain able to -/

theorem filter_ack_step_events (K : Consts) (irq : Nat) (d : ipipe_domain) (pos : Nat)
    (m_ack : Bool) :
    (step_events K irq d pos m_ack).filter is_ack =
      if (test_bit K.IPIPE_HANDLE_FLAG (d.irqs irq).control && !m_ack) = true then
        ack_of irq (some (pos, d)) else [] := by
  cases hH : test_bit K.IPIPE_HANDLE_FLAG (d.irqs irq).control <;>
    cases hA : (d.irqs irq).acknowledge <;> cases m_ack <;>
    simp [step_events, hH, hA, is_ack, ack_of]

theorem filter_ack_mark_pending_acked (K : Consts) (irq : Nat) (L : List ipipe_domain)
    (pos : Nat) (st : State) :
    (mark_pending K irq L pos true st).trace.filter is_ack = [] := by
  rw [List.filter_eq_nil_iff]
  intro e he
  cases e <;> simp [is_ack]
  exact mark_pending_acked_no_ack K irq L pos st _ _ _ he

theorem filter_ack_mark_pending (K : Consts) (irq : Nat) (L : List ipipe_domain) :
    ∀ (pos : Nat) (st : State),
      (mark_pending K irq L pos false st).trace.filter is_ack =
        ack_of irq (first_acker K irq L pos) := by
  induction L with
  | nil => intro pos st; simp [mark_pending, first_acker, pass_reach, ack_of]
  | cons d rest ih =>
    intro pos st
    rw [mark_pending_cons]
    cases hH : test_bit K.IPIPE_HANDLE_FLAG (d.irqs irq).control <;>
      cases hA : (d.irqs irq).acknowledge <;>
      cases hP : test_bit K.IPIPE_PASS_FLAG (d.irqs irq).control <;>
      simp [filter_ack_step_events, filter_ack_mark_pending_acked, step_ack, hH, hA, hP,
        ih, first_acker, pass_reach, ack_of, List.enumFrom_cons, List.find?_cons]

theorem filter_ack_root_lock (K : Consts) (P : Pipeline) (st : State) :
    (root_lock K P st).1.filter is_ack = [] := by
  unfold root_lock
  split <;> simp [is_ack]

theorem filter_ack_finalize (K : Consts) (E : Env) (head : Nat) (s : Int) (st : State) :
    (finalize K E head s st).trace.filter is_ack = [] := by
  unfold finalize restore_stall
  split <;> simp [is_ack]

theorem filter_ack_generic_path (K : Consts) (E : Env) (P : Pipeline) (irq head : Nat)
    (m_ack : Bool) (st : State) :
    (generic_path K E P irq head m_ack st).trace.filter is_ack =
      (mark_pending K irq (P.domains.drop head) head m_ack st).trace.filter is_ack := by
  simp [generic_path, List.filter_append, filter_ack_root_lock, filter_ack_finalize]

theorem filter_ack_wired_path (K : Consts) (E : Env) (P : Pipeline) (irq : Nat)
    (m_ack : Bool) (st : State) :
    (wired_path K E P irq m_ack st).trace.filter is_ack =
      if m_ack = true then [] else ack_of irq (some (0, P.first)) := by
  cases hA : (P.first.irqs irq).acknowledge <;> cases m_ack <;>
    simp [wired_path, List.filter_append, filter_ack_root_lock, filter_ack_finalize, hA,
      is_ack, ack_of]

theorem length_ack_of_le (irq : Nat) (o : Option (Nat × ipipe_domain)) :
    (ack_of irq o).length ≤ 1 := by
  unfold ack_of
  split
  · split <;> simp
  · simp

theorem length_filter_ack_mark_pending (K : Consts) (irq : Nat) (L : List ipipe_domain)
    (pos : Nat) (m_ack : Bool) (st : State) :
    ((mark_pending K irq L pos m_ack st).trace.filter is_ack).length ≤ 1 := by
  cases m_ack
  · rw [filter_ack_mark_pending]; exact length_ack_of_le _ _
  · rw [filter_ack_mark_pending_acked]; simp

/-- C3: one call of `__ipipe_handle_irq` invokes acknowledge callbacks at most
once in total; on the generic path (sticky IRQ, or head domain not wired) with
acknowledgment needed, the acknowledge callbacks invoked are exactly the one of
the first domain, from the starting point and within the reach of the PASS
chain, that has HANDLE set and a non-null acknowledge callback (none when
there is no such domain), so no later domain acknowledges. -/
theorem acknowledge_once (K : Consts) (E : Env) (P : Pipeline) (irq : Nat)
    (regs : Option Nat) (st : State) :
    ((__ipipe_handle_irq K E P irq regs st).trace.filter is_ack).length ≤ 1 ∧
    ((test_bit K.IPIPE_STICKY_FLAG (P.this_domain.irqs irq).control = true ∨
        test_bit K.IPIPE_WIRED_FLAG (P.first.irqs irq).control = false) →
      regs ≠ none → irq ≠ K.IRQ_SYSTMR → irq ≠ K.IRQ_CORETMR →
      (__ipipe_handle_irq K E P irq regs st).trace.filter is_ack =
        ack_of irq (first_acker K irq (P.domains.drop (start_pos K P irq))
          (start_pos K P irq))) := by
  constructor
  · rcases handle_irq_cases K E P irq regs st with ⟨_, e⟩ | ⟨_, _, e⟩ | ⟨_, _, e⟩
    · rw [e, filter_ack_generic_path]; exact length_filter_ack_mark_pending _ _ _ _ _ _
    · rw [e, filter_ack_wired_path]
      split
      · simp
      · exact length_ack_of_le _ _
    · rw [e, filter_ack_generic_path]; exact length_filter_ack_mark_pending _ _ _ _ _ _
  · intro hpath hregs h1 h2
    have hm : (regs.isNone || irq == K.IRQ_SYSTMR || irq == K.IRQ_CORETMR) = false := by
      cases regs with
      | none => exact absurd rfl hregs
      | some r => simp [h1, h2]
    rcases handle_irq_cases K E P irq regs st with ⟨hS, e⟩ | ⟨hS, hW, e⟩ | ⟨hS, _, e⟩
    · rw [e, hm, filter_ack_generic_path, filter_ack_mark_pending]
      simp [start_pos, hS]
    · rcases hpath with h | h
      · rw [hS] at h; cases h
      · rw [hW] at h; cases h
    · rw [e, hm, filter_ack_generic_path, filter_ack_mark_pending]
      simp [start_pos, hS]

theorem acknowledge_once_witness :
    (__ipipe_handle_irq K0 E0 ⟨[dom 2 (some 7)], dom 3 (some 8), [dom 3 (some 9)], 0⟩ 5
        (some 0) st0).trace.filter is_ack = [Event.acknowledge 1 8 5] :=
  (acknowledge_once K0 E0 ⟨[dom 2 (some 7)], dom 3 (some 8), [dom 3 (some 9)], 0⟩ 5
    (some 0) st0).2 (Or.inr (by decide)) (by decide) (by decide) (by decide)

/-! ## Pending before acknowledge -/

theorem ackAfterPending_append (A B : List Event) (hA : AckAfterPending A)
    (hB : AckAfterPending B) : AckAfterPending (A ++ B) := by
  intro pre post d cb i h
  rcases List.append_eq_append_iff.1 h with ⟨a, h1, h2⟩ | ⟨c, h1, h2⟩
  · have := hB a post d cb i h2
    rw [h1]; exact List.mem_append_right _ this
  · cases c with
    | nil =>
      have := hB [] post d cb i (by simpa using h2.symm)
      simp at this
    | cons x c =>
      simp only [List.cons_append, List.cons.injEq] at h2
      obtain ⟨rfl, rfl⟩ := h2
      exact hA pre c d cb i h1

theorem ackAfterPending_of_no_ack (B : List Event) (h : B.filter is_ack = []) :
    AckAfterPending B := by
  intro pre post d cb i e
  rw [List.filter_eq_nil_iff] at h
  have := h (Event.acknowledge d cb i) (by rw [e]; simp)
  simp [is_ack] at this

theorem ackAfterPending_step_events (K : Consts) (irq : Nat) (d : ipipe_domain) (pos : Nat)
    (m_ack : Bool) : AckAfterPending (step_events K irq d pos m_ack) := by
  intro pre post j cb i h
  cases hH : test_bit K.IPIPE_HANDLE_FLAG (d.irqs irq).control <;>
    cases hA : (d.irqs irq).acknowledge <;> cases m_ack <;>
    simp [step_events, hH, hA] at h <;>
    rcases pre with _ | ⟨a, _ | ⟨b, pre⟩⟩ <;> simp at h
  obtain ⟨rfl, ⟨rfl, rfl, rfl⟩, _⟩ := h
  simp

theorem ackAfterPending_mark_pending (K : Consts) (irq : Nat) (L : List ipipe_domain) :
    ∀ (pos : Nat) (m_ack : Bool) (st : State),
      AckAfterPending (mark_pending K irq L pos m_ack st).trace := by
  induction L with
  | nil =>
    intro pos m_ack st
    exact ackAfterPending_of_no_ack _ (by simp [mark_pending])
  | cons d rest ih =>
    intro pos m_ack st
    rw [mark_pending_cons]
    split
    · exact ackAfterPending_append _ _ (ackAfterPending_step_events _ _ _ _ _) (ih _ _ _)
    · exact ackAfterPending_step_events _ _ _ _ _

theorem ackAfterPending_generic_path (K : Consts) (E : Env) (P : Pipeline) (irq head : Nat)
    (m_ack : Bool) (st : State) :
    AckAfterPending (generic_path K E P irq head m_ack st).trace := by
  unfold generic_path
  exact ackAfterPending_append _ _
    (ackAfterPending_append _ _ (ackAfterPending_mark_pending _ _ _ _ _ _)
      (ackAfterPending_of_no_ack _ (filter_ack_root_lock _ _ _)))
    (ackAfterPending_of_no_ack _ (filter_ack_finalize _ _ _ _ _))

/-- C4: on the generic path of `__ipipe_handle_irq` (sticky IRQ, or head
domain not wired), wherever the trace of the call holds the invocation of the
acknowledge callback of a domain, the part of the trace before it holds the
`__ipipe_set_irq_pending` of that domain for the IRQ. -/
theorem pending_before_acknowledge (K : Consts) (E : Env) (P : Pipeline) (irq : Nat)
    (regs : Option Nat) (st : State)
    (hpath : test_bit K.IPIPE_STICKY_FLAG (P.this_domain.irqs irq).control = true ∨
      test_bit K.IPIPE_WIRED_FLAG (P.first.irqs irq).control = false)
    (pre post : List Event) (d cb i : Nat)
    (h : (__ipipe_handle_irq K E P irq regs st).trace =
      pre ++ Event.acknowledge d cb i :: post) :
    Event.set_irq_pending d i ∈ pre := by
  rcases handle_irq_cases K E P irq regs st with ⟨_, e⟩ | ⟨hS, hW, e⟩ | ⟨_, _, e⟩
  · rw [e] at h
    exact ackAfterPending_generic_path _ _ _ _ _ _ _ pre post d cb i h
  · rcases hpath with h1 | h1
    · rw [hS] at h1; cases h1
    · rw [hW] at h1; cases h1
  · rw [e] at h
    exact ackAfterPending_generic_path _ _ _ _ _ _ _ pre post d cb i h

theorem pending_before_acknowledge_witness :
    (__ipipe_handle_irq K0 E0 ⟨[], dom 3 (some 9), [], 0⟩ 5 (some 0) st0).trace =
        [Event.set_irq_pending 0 5] ++ Event.acknowledge 0 9 5 :: [Event.walk_pipeline 0] ∧
      Event.set_irq_pending 0 5 ∈ [Event.set_irq_pending 0 5] :=
  ⟨by decide,
   pending_before_acknowledge K0 E0 ⟨[], dom 3 (some 9), [], 0⟩ 5 (some 0) st0
    (Or.inr (by decide)) [Event.set_irq_pending 0 5] [Event.walk_pipeline 0] 0 9 5
    (by decide)⟩

/-! ## The root stall bit -/

theorem stalled_lock_restore (K : Consts) (P : Pipeline) (f : State → State)
    (hf : ∀ s, stalled K (f s) = stalled K s) (st : State) :
    stalled K (restore_stall K (root_lock K P st).2.1 (f (root_lock K P st).2.2)).state =
      stalled K st := by
  unfold root_lock
  cases hL : test_bit K.IPIPE_ROOTLOCK_FLAG P.root_flags
  · simp [restore_stall, hf]
  · cases hs : stalled K st
    · simp only [test_and_set_stall, hs, restore_stall, Bool.false_eq_true, if_true,
        if_false]
      simp [stalled, test_bit_clear_bit_self]
    · simp only [test_and_set_stall, hs, restore_stall, if_true, one_ne_zero, if_false, hf]
      simp [stalled, test_bit_set_bit_self]

theorem stalled_mark_pending (K : Consts) (irq : Nat) (L : List ipipe_domain)
    (pos : Nat) (m_ack : Bool) (st : State) :
    stalled K (mark_pending K irq L pos m_ack st).state = stalled K st := by
  unfold stalled
  rw [mark_pending_root_status]

theorem stalled_generic_path (K : Consts) (E : Env) (P : Pipeline) (irq head : Nat)
    (m_ack : Bool) (st : State)
    (hw : ∀ h s, stalled K (E.walk_pipeline h s) = stalled K s) :
    stalled K (generic_path K E P irq head m_ack st).state = stalled K st := by
  simp only [generic_path, finalize]
  rw [stalled_lock_restore K P (E.walk_pipeline head) (hw head), stalled_mark_pending]

theorem stalled_wired_path (K : Consts) (E : Env) (P : Pipeline) (irq : Nat)
    (m_ack : Bool) (st : State)
    (hd : ∀ d i s, stalled K (E.dispatch_wired d i s) = stalled K s)
    (hw : ∀ h s, stalled K (E.walk_pipeline h s) = stalled K s) :
    stalled K (wired_path K E P irq m_ack st).state = stalled K st := by
  simp only [wired_path, finalize]
  exact stalled_lock_restore K P (fun s => E.walk_pipeline 0 (E.dispatch_wired 0 irq s))
    (fun s => by rw [hw, hd]) st

theorem stalled_handle_irq (K : Consts) (E : Env) (P : Pipeline) (irq : Nat)
    (regs : Option Nat) (st : State)
    (hd : ∀ d i s, stalled K (E.dispatch_wired d i s) = stalled K s)
    (hw : ∀ h s, stalled K (E.walk_pipeline h s) = stalled K s) :
    stalled K (__ipipe_handle_irq K E P irq regs st).state = stalled K st := by
  rcases handle_irq_cases K E P irq regs st with ⟨_, e⟩ | ⟨_, _, e⟩ | ⟨_, _, e⟩
  · rw [e]; exact stalled_generic_path _ _ _ _ _ _ _ hw
  · rw [e]; exact stalled_wired_path _ _ _ _ _ _ hd hw
  · rw [e]; exact stalled_generic_path _ _ _ _ _ _ _ hw

theorem nestedOnly_stalled (K : Consts) (n : Nat) (f : State → State)
    (h : NestedOnly K n f) : ∀ s, stalled K (f s) = stalled K s := by
  induction h with
  | quiet n f h => exact h
  | seq n f g _ _ ihf ihg => intro s; rw [ihg, ihf]
  | nested n E P irq regs _ _ ihd ihw =>
    intro s
    exact stalled_handle_irq K E P irq regs s (fun d i => ihd d i) (fun h => ihw h)

/-- C6: for every nesting depth `n` and either initial value of the root stall
bit, if what runs during the wired dispatch and the pipeline walk changes the
root stall bit only through calls of `__ipipe_handle_irq` nested at most `n`
deep, the root stall bit after the outermost call is the one before it. -/
theorem stall_round_trip (K : Consts) (n : Nat) (E : Env) (P : Pipeline) (irq : Nat)
    (regs : Option Nat) (st : State)
    (hd : ∀ d i, NestedOnly K n (E.dispatch_wired d i))
    (hw : ∀ h, NestedOnly K n (E.walk_pipeline h)) :
    stalled K (__ipipe_handle_irq K E P irq regs st).state = stalled K st :=
  nestedOnly_stalled K (n + 1) _ (NestedOnly.nested n E P irq regs hd hw) st

theorem stall_round_trip_witness :
    stalled K0 (__ipipe_handle_irq K0 E1 Plock 5 (some 0) st0).state = stalled K0 st0 :=
  stall_round_trip K0 1 E1 Plock 5 (some 0) st0
    (fun _ _ => NestedOnly.quiet 1 _ (fun _ => rfl))
    (fun _ => NestedOnly.nested 0 E0 Plock 3 none
      (fun _ _ => NestedOnly.quiet 0 _ (fun _ => rfl))
      (fun _ => NestedOnly.quiet 0 _ (fun _ => rfl)))

theorem root_lock_mark_pending (K : Consts) (P : Pipeline) (irq : Nat)
    (L : List ipipe_domain) (pos : Nat) (m_ack : Bool) (st : State) :
    (root_lock K P (mark_pending K irq L pos m_ack st).state).2.1 =
      (root_lock K P st).2.1 := by
  have h := stalled_mark_pending K irq L pos m_ack st
  unfold root_lock test_and_set_stall
  split
  · simp only [h]
  · rfl

/-- C7: the restoration of the stall bit is executed on every path of
`__ipipe_handle_irq`: the trace of a call ends with the walk of the pipeline
from its starting point followed by the restore step, which yields the final
state; so the stall bit is as on entry whenever the dispatch and the walk
leave it as they found it. On the wired path with ROOTLOCK set and the stall
bit clear on entry, the bit is set in the state handed to
`__ipipe_dispatch_wired`, the test-and-set precedes the dispatch in the trace,
and the bit is clear on return when the dispatch and the walk leave it as they
found it. -/
theorem stall_restored_on_every_path (K : Consts) (P : Pipeline) (irq : Nat)
    (regs : Option Nat) (st : State) :
    (∀ E : Env, ∃ pre st1,
      (__ipipe_handle_irq K E P irq regs st).trace =
        pre ++ Event.walk_pipeline (start_pos K P irq) ::
          (restore_stall K (root_lock K P st).2.1
            (E.walk_pipeline (start_pos K P irq) st1)).trace ∧
      (__ipipe_handle_irq K E P irq regs st).state =
        (restore_stall K (root_lock K P st).2.1
          (E.walk_pipeline (start_pos K P irq) st1)).state) ∧
    (∀ E : Env, (∀ d i s, stalled K (E.dispatch_wired d i s) = stalled K s) →
      (∀ h s, stalled K (E.walk_pipeline h s) = stalled K s) →
      stalled K (__ipipe_handle_irq K E P irq regs st).state = stalled K st) ∧
    (test_bit K.IPIPE_STICKY_FLAG (P.this_domain.irqs irq).control = false →
      test_bit K.IPIPE_WIRED_FLAG (P.first.irqs irq).control = true →
      test_bit K.IPIPE_ROOTLOCK_FLAG P.root_flags = true →
      stalled K st = false →
      ∃ st1, stalled K st1 = true ∧ ∀ E : Env,
        (__ipipe_handle_irq K E P irq regs st).state =
          (restore_stall K 0
            (E.walk_pipeline 0 (E.dispatch_wired 0 irq st1))).state ∧
        (∃ acks, (∀ e ∈ acks, is_ack e = true) ∧
          (__ipipe_handle_irq K E P irq regs st).trace =
            acks ++ [Event.test_and_set_stall, Event.dispatch_wired 0 irq,
              Event.walk_pipeline 0, Event.clear_stall]) ∧
        ((∀ d i s, stalled K (E.dispatch_wired d i s) = stalled K s) →
          (∀ h s, stalled K (E.walk_pipeline h s) = stalled K s) →
          stalled K (__ipipe_handle_irq K E P irq regs st).state = false)) := by
  refine ⟨?_, ?_, ?_⟩
  · intro E
    rcases handle_irq_cases K E P irq regs st with ⟨hS, e⟩ | ⟨hS, _, e⟩ | ⟨hS, _, e⟩
    · rw [e]
      simp only [generic_path, finalize, start_pos, hS, if_true, root_lock_mark_pending]
      exact ⟨_, _, rfl, rfl⟩
    · rw [e]
      simp only [wired_path, finalize, start_pos, hS, Bool.false_eq_true, if_false]
      refine ⟨(match (P.first.irqs irq).acknowledge with
          | some cb =>
            if (!(regs.isNone || irq == K.IRQ_SYSTMR || irq == K.IRQ_CORETMR)) = true then
              [Event.acknowledge 0 cb irq] else []
          | none => []) ++ (root_lock K P st).1 ++ [Event.dispatch_wired 0 irq],
        E.dispatch_wired 0 irq (root_lock K P st).2.2, ?_, rfl⟩
      simp
    · rw [e]
      simp only [generic_path, finalize, start_pos, hS, Bool.false_eq_true, if_false,
        root_lock_mark_pending]
      exact ⟨_, _, rfl, rfl⟩
  · intro E hd hw
    exact stalled_handle_irq K E P irq regs st hd hw
  · intro hS hW hL hs
    refine ⟨(test_and_set_stall K st).2, ?_, ?_⟩
    · simp [test_and_set_stall, stalled, test_bit_set_bit_self]
    · intro E
      have e : __ipipe_handle_irq K E P irq regs st =
          wired_path K E P irq
            (regs.isNone || irq == K.IRQ_SYSTMR || irq == K.IRQ_CORETMR) st := by
        simp [__ipipe_handle_irq, hS, hW]
      have hl : root_lock K P st =
          ([Event.test_and_set_stall], 0, (test_and_set_stall K st).2) := by
        simp [root_lock, hL, test_and_set_stall, hs]
      refine ⟨?_, ?_, ?_⟩
      · rw [e]; simp only [wired_path, finalize, hl]
      · rw [e]
        simp only [wired_path, finalize, hl, restore_stall, if_true]
        refine ⟨_, ?_, by simp; rfl⟩
        intro x hx
        cases hA : (P.first.irqs irq).acknowledge with
        | none => simp [hA] at hx
        | some cb =>
          rw [hA] at hx
          simp only [] at hx
          split at hx
          · simp at hx; subst hx; rfl
          · simp at hx
      · intro hd hw
        rw [stalled_handle_irq K E P irq regs st hd hw, hs]

theorem stall_restored_on_every_path_witness :
    ∃ st1, stalled K0 st1 = true ∧ ∀ E : Env,
      (__ipipe_handle_irq K0 E Pwired 5 (some 0) st0).state =
        (restore_stall K0 0 (E.walk_pipeline 0 (E.dispatch_wired 0 5 st1))).state ∧
      (∃ acks, (∀ e ∈ acks, is_ack e = true) ∧
        (__ipipe_handle_irq K0 E Pwired 5 (some 0) st0).trace =
          acks ++ [Event.test_and_set_stall, Event.dispatch_wired 0 5,
            Event.walk_pipeline 0, Event.clear_stall]) ∧
      ((∀ d i s, stalled K0 (E.dispatch_wired d i s) = stalled K0 s) →
        (∀ h s, stalled K0 (E.walk_pipeline h s) = stalled K0 s) →
        stalled K0 (__ipipe_handle_irq K0 E Pwired 5 (some 0) st0).state = false) :=
  (stall_restored_on_every_path K0 Pwired 5 (some 0) st0).2.2
    (by decide) (by decide) (by decide) (by decide)

/-! ## The wired path -/

/-- C9: when the IRQ is not sticky in the current domain and the head domain
`H` of the pipeline has WIRED set for it, `__ipipe_handle_irq` sets no pending
bit itself, invokes the acknowledge callback of `H` exactly when
acknowledgment is needed and `H` has one, calls `__ipipe_dispatch_wired(H, irq)`
exactly once, and then runs `__ipipe_walk_pipeline` from the head of the
pipeline, on the state the dispatch left. -/
theorem wired_shortcut (K : Consts) (E : Env) (P : Pipeline) (irq : Nat)
    (regs : Option Nat) (st : State)
    (hS : test_bit K.IPIPE_STICKY_FLAG (P.this_domain.irqs irq).control = false)
    (hW : test_bit K.IPIPE_WIRED_FLAG (P.first.irqs irq).control = true) :
    (∀ d i, Event.set_irq_pending d i ∉ (__ipipe_handle_irq K E P irq regs st).trace) ∧
    (root_lock K P st).2.2.irqpend = st.irqpend ∧
    (__ipipe_handle_irq K E P irq regs st).trace.filter is_ack =
      (if ack_needed K irq regs = true then
        (P.first.irqs irq).acknowledge.toList.map fun cb => Event.acknowledge 0 cb irq
       else []) ∧
    (__ipipe_handle_irq K E P irq regs st).trace.filter is_dispatch =
      [Event.dispatch_wired 0 irq] ∧
    (∃ pre post, (∀ e ∈ pre, is_ack e = true ∨ e = Event.test_and_set_stall) ∧
      (∀ e ∈ post, e = Event.clear_stall) ∧
      (__ipipe_handle_irq K E P irq regs st).trace =
        pre ++ [Event.dispatch_wired 0 irq, Event.walk_pipeline 0] ++ post) ∧
    (__ipipe_handle_irq K E P irq regs st).state =
      (restore_stall K (root_lock K P st).2.1
        (E.walk_pipeline 0 (E.dispatch_wired 0 irq (root_lock K P st).2.2))).state := by
  have e : __ipipe_handle_irq K E P irq regs st =
      wired_path K E P irq
        (regs.isNone || irq == K.IRQ_SYSTMR || irq == K.IRQ_CORETMR) st := by
    simp [__ipipe_handle_irq, hS, hW]
  refine ⟨?_, ?_, ?_, ?_, ?_, ?_⟩
  · intro d i h
    rw [e] at h
    rcases mem_wired_path _ _ _ _ _ _ _ h with ⟨cb, h, _⟩ | h | h | h | h
    all_goals simp at h
  · unfold root_lock test_and_set_stall
    split <;> rfl
  · rw [e, filter_ack_wired_path]
    cases hA : (P.first.irqs irq).acknowledge <;>
      cases hm : (regs.isNone || irq == K.IRQ_SYSTMR || irq == K.IRQ_CORETMR) <;>
      simp [ack_needed, ack_of, hA, hm]
  · rw [e]
    have h1 : (root_lock K P st).1.filter is_dispatch = [] := by
      unfold root_lock
      split <;> simp [is_dispatch]
    have h2 : ∀ s st2, (restore_stall K s st2).trace.filter is_dispatch = [] := by
      intro s st2
      unfold restore_stall
      split <;> simp [is_dispatch]
    cases hA : (P.first.irqs irq).acknowledge <;>
      cases hm : (regs.isNone || irq == K.IRQ_SYSTMR || irq == K.IRQ_CORETMR) <;>
      simp [wired_path, finalize, List.filter_append, h1, h2, hA, is_dispatch]
  · rw [e]
    refine ⟨(match (P.first.irqs irq).acknowledge with
        | some cb =>
          if (!(regs.isNone || irq == K.IRQ_SYSTMR || irq == K.IRQ_CORETMR)) = true then
            [Event.acknowledge 0 cb irq] else []
        | none => []) ++ (root_lock K P st).1,
      (restore_stall K (root_lock K P st).2.1
        (E.walk_pipeline 0 (E.dispatch_wired 0 irq (root_lock K P st).2.2))).trace,
      ?_, ?_, ?_⟩
    · intro x hx
      rcases List.mem_append.1 hx with hx | hx
      · left
        cases hA : (P.first.irqs irq).acknowledge with
        | none => simp [hA] at hx
        | some cb =>
          rw [hA] at hx
          simp only [] at hx
          split at hx
          · simp at hx; subst hx; rfl
          · simp at hx
      · exact Or.inr (mem_root_lock K P st x hx)
    · intro x hx
      exact mem_restore_stall K _ _ x hx
    · simp [wired_path, finalize]
  · rw [e]
    simp only [wired_path, finalize]

theorem wired_shortcut_witness :
    (__ipipe_handle_irq K0 E0 Pwired 5 (some 0) st0).trace.filter is_dispatch =
        [Event.dispatch_wired 0 5] ∧
      (__ipipe_handle_irq K0 E0 Pwired 5 (some 0) st0).trace =
        [Event.acknowledge 0 7 5, Event.test_and_set_stall, Event.dispatch_wired 0 5,
          Event.walk_pipeline 0, Event.clear_stall] :=
  ⟨(wired_shortcut K0 E0 Pwired 5 (some 0) st0 (by decide) (by decide)).2.2.2.1, by decide⟩

/-! ## Coalescing of `kick_irqd` -/

theorem scheduled_after_or (status m : Nat) (hm : m ≠ 0) : (status ||| m) &&& m ≠ 0 := by
  intro h
  apply hm
  apply Nat.eq_of_testBit_eq
  intro i
  have := congrArg (fun x => Nat.testBit x i) h
  simp only [Nat.testBit_and, Nat.testBit_or, Nat.zero_testBit] at this
  rw [Nat.zero_testBit]
  cases hb : m.testBit i
  · rfl
  · rw [hb] at this; simp at this

theorem kick_irqd_idle (K : Consts) (cpu irq : Nat) (st : IrqdState)
    (h : (st.irq_desc irq).status &&& K.IRQ_SCHEDULED = 0) :
    kick_irqd K cpu irq st =
      ⟨[IrqdEvent.wake_up_process (st.irq_desc irq).thread],
       { irq_desc := fun i =>
           if i = irq then
             { st.irq_desc irq with
               status := (st.irq_desc irq).status ||| K.IRQ_SCHEDULED }
           else st.irq_desc i
         pending_irqthread_mask := fun c =>
           if c = cpu then
             st.pending_irqthread_mask cpu ||| (1 <<< (st.irq_desc irq).thr_prio)
           else st.pending_irqthread_mask c
         pending_irq_count := fun c p =>
           if c = cpu ∧ p = (st.irq_desc irq).thr_prio then
             st.pending_irq_count cpu (st.irq_desc irq).thr_prio + 1
           else st.pending_irq_count c p }⟩ := by
  simp [kick_irqd, h]

theorem kick_irqd_scheduled (K : Consts) (cpu irq : Nat) (st : IrqdState)
    (h : (st.irq_desc irq).status &&& K.IRQ_SCHEDULED ≠ 0) :
    kick_irqd K cpu irq st = ⟨[], st⟩ := by
  simp [kick_irqd, h]

theorem kick_irqd_sets_scheduled (K : Consts) (cpu irq : Nat) (st : IrqdState)
    (hK : K.IRQ_SCHEDULED ≠ 0) :
    ((kick_irqd K cpu irq st).state.irq_desc irq).status &&& K.IRQ_SCHEDULED ≠ 0 := by
  by_cases h : (st.irq_desc irq).status &&& K.IRQ_SCHEDULED = 0
  · rw [kick_irqd_idle K cpu irq st h]
    simp only [if_true]
    exact scheduled_after_or _ _ hK
  · rw [kick_irqd_scheduled K cpu irq st h]
    exact h

theorem kick_irqd_times_scheduled (K : Consts) (cpu irq : Nat) (n : Nat) :
    ∀ st : IrqdState, (st.irq_desc irq).status &&& K.IRQ_SCHEDULED ≠ 0 →
      kick_irqd_times K cpu irq n st = ⟨[], st⟩ := by
  induction n with
  | zero => intro st _; rfl
  | succ n ih =>
    intro st h
    simp only [kick_irqd_times]
    rw [kick_irqd_scheduled K cpu irq st h]
    simp only [List.nil_append]
    rw [ih st h]

/-- C10: `kick_irqd` coalesces. On a descriptor that is not SCHEDULED it sets
SCHEDULED in the status, sets the bit of the priority class in the pending
mask of the processor, increments the pending count of the class and wakes the
worker once; on a descriptor already SCHEDULED it changes nothing and wakes
nobody. So `N >= 1` consecutive calls on an idle descriptor wake the worker
exactly once and leave the state of a single call, and a call followed by a
call is a single call. -/
theorem kick_irqd_coalesces (K : Consts) (cpu irq : Nat) (st : IrqdState)
    (hK : K.IRQ_SCHEDULED ≠ 0) :
    ((st.irq_desc irq).status &&& K.IRQ_SCHEDULED = 0 →
      ((kick_irqd K cpu irq st).state.irq_desc irq).status =
          (st.irq_desc irq).status ||| K.IRQ_SCHEDULED ∧
        ((kick_irqd K cpu irq st).state.irq_desc irq).status &&& K.IRQ_SCHEDULED ≠ 0 ∧
        test_bit (st.irq_desc irq).thr_prio
          ((kick_irqd K cpu irq st).state.pending_irqthread_mask cpu) = true ∧
        (kick_irqd K cpu irq st).state.pending_irq_count cpu (st.irq_desc irq).thr_prio =
          st.pending_irq_count cpu (st.irq_desc irq).thr_prio + 1 ∧
        (kick_irqd K cpu irq st).trace =
          [IrqdEvent.wake_up_process (st.irq_desc irq).thread]) ∧
    ((st.irq_desc irq).status &&& K.IRQ_SCHEDULED ≠ 0 →
      (kick_irqd K cpu irq st).state = st ∧ (kick_irqd K cpu irq st).trace = []) ∧
    ((st.irq_desc irq).status &&& K.IRQ_SCHEDULED = 0 → ∀ N, 1 ≤ N →
      (kick_irqd_times K cpu irq N st).trace =
          [IrqdEvent.wake_up_process (st.irq_desc irq).thread] ∧
        (kick_irqd_times K cpu irq N st).state = (kick_irqd K cpu irq st).state) ∧
    ((kick_irqd K cpu irq (kick_irqd K cpu irq st).state).state =
        (kick_irqd K cpu irq st).state ∧
      (kick_irqd K cpu irq st).trace ++
          (kick_irqd K cpu irq (kick_irqd K cpu irq st).state).trace =
        (kick_irqd K cpu irq st).trace) := by
  have hs := kick_irqd_sets_scheduled K cpu irq st hK
  refine ⟨?_, ?_, ?_, ?_⟩
  · intro h
    refine ⟨?_, hs, ?_, ?_, ?_⟩
    · rw [kick_irqd_idle K cpu irq st h]; simp
    · rw [kick_irqd_idle K cpu irq st h]
      simp [test_bit, Nat.testBit_or, Nat.testBit_shiftLeft]
    · rw [kick_irqd_idle K cpu irq st h]; simp
    · rw [kick_irqd_idle K cpu irq st h]
  · intro h
    rw [kick_irqd_scheduled K cpu irq st h]
    exact ⟨rfl, rfl⟩
  · intro h N hN
    obtain ⟨n, rfl⟩ : ∃ n, N = n + 1 := ⟨N - 1, by omega⟩
    simp only [kick_irqd_times]
    rw [kick_irqd_times_scheduled K cpu irq n _ hs]
    rw [kick_irqd_idle K cpu irq st h]
    exact ⟨rfl, rfl⟩
  · rw [kick_irqd_scheduled K cpu irq _ hs]
    exact ⟨rfl, by simp⟩

theorem kick_irqd_coalesces_witness :
    (kick_irqd_times K0 0 9 3 sd0).trace = [IrqdEvent.wake_up_process (some 40)] ∧
      (kick_irqd_times K0 0 9 3 sd0).state = (kick_irqd K0 0 9 sd0).state :=
  (kick_irqd_coalesces K0 0 9 sd0 (by decide)).2.2.1 (by decide) 3 (by decide)


/-! ## The pending count under repeated `kick_irqd` -/

/-- C11, as stated, fails: after 3 calls of `kick_irqd` on an idle descriptor
whose class has a pending count of 0, the pending count of the class is 1,
not 3. -/
theorem kick_irqd_count_counterexample :
    (sd0.irq_desc 9).status &&& K0.IRQ_SCHEDULED = 0 ∧
      sd0.pending_irq_count 0 (sd0.irq_desc 9).thr_prio = 0 ∧
      (kick_irqd_times K0 0 9 3 sd0).state.pending_irq_count 0 (sd0.irq_desc 9).thr_prio = 1 ∧
      (kick_irqd_times K0 0 9 3 sd0).state.pending_irq_count 0 (sd0.irq_desc 9).thr_prio ≠ 3 := by
  decide

/-- C11 (amended): for every `N >= 1`, from a state where the descriptor of
the IRQ is not SCHEDULED and the pending count of its class is 0, after `N`
calls of `kick_irqd` with no worker pass in between the pending count of the
class is 1: only the call that schedules the descriptor increments it. -/
theorem kick_irqd_count_one (K : Consts) (cpu irq : Nat) (st : IrqdState) (N : Nat)
    (hK : K.IRQ_SCHEDULED ≠ 0)
    (hidle : (st.irq_desc irq).status &&& K.IRQ_SCHEDULED = 0)
    (hcount : st.pending_irq_count cpu (st.irq_desc irq).thr_prio = 0)
    (hN : 1 ≤ N) :
    (kick_irqd_times K cpu irq N st).state.pending_irq_count cpu
      (st.irq_desc irq).thr_prio = 1 := by
  obtain ⟨n, rfl⟩ : ∃ n, N = n + 1 := ⟨N - 1, by omega⟩
  simp only [kick_irqd_times]
  rw [kick_irqd_times_scheduled K cpu irq n _ (kick_irqd_sets_scheduled K cpu irq st hK)]
  rw [kick_irqd_idle K cpu irq st hidle]
  simp [hcount]

theorem kick_irqd_count_one_witness :
    (kick_irqd_times K0 0 9 3 sd0).state.pending_irq_count 0 (sd0.irq_desc 9).thr_prio = 1 :=
  kick_irqd_count_one K0 0 9 sd0 3 (by decide) (by decide) (by decide) (by decide)

/-! ## Bits of the pending mask -/

theorem testBit_and_not (w m i : Nat) :
    (and_not w m).testBit i = (w.testBit i && !m.testBit i) := by
  unfold and_not
  rw [Nat.testBit_xor, Nat.testBit_and]
  cases w.testBit i <;> cases m.testBit i <;> rfl

theorem and_not_and_self (w m : Nat) : and_not w m &&& m = 0 := by
  apply Nat.eq_of_testBit_eq
  intro i
  rw [Nat.testBit_and, testBit_and_not, Nat.zero_testBit]
  cases w.testBit i <;> cases m.testBit i <;> rfl

theorem testBit_class_and_below (p i : Nat) :
    (1 <<< p ||| (1 <<< p - 1)).testBit i = decide (i ≤ p) := by
  rw [Nat.testBit_or, Nat.one_shiftLeft, Nat.testBit_two_pow, Nat.testBit_two_pow_sub_one]
  by_cases h1 : p = i
  · subst h1; simp
  · by_cases h2 : i < p
    · simp [h1, h2, Nat.le_of_lt h2]
    · have : ¬ i ≤ p := by omega
      simp [h1, h2, this]

theorem testBit_class (p i : Nat) : (1 <<< p).testBit i = decide (p = i) := by
  rw [Nat.one_shiftLeft, Nat.testBit_two_pow]

/-- The test of line 362 holds exactly when a bit above the class of the
worker is set in the pending mask of the processor. -/
theorem higher_pending_iff (cpu irq : Nat) (st : IrqdState) :
    higher_pending cpu irq st = true ↔
      ∃ i, (st.irq_desc irq).thr_prio < i ∧
        test_bit i (st.pending_irqthread_mask cpu) = true := by
  unfold higher_pending test_bit
  rw [bne_iff_ne]
  constructor
  · intro h
    obtain ⟨i, hi⟩ := Nat.ne_zero_implies_bit_true h
    rw [testBit_and_not, testBit_class_and_below] at hi
    refine ⟨i, ?_, ?_⟩
    · by_contra hle
      have : i ≤ (st.irq_desc irq).thr_prio := by omega
      simp [this] at hi
    · cases hb : (st.pending_irqthread_mask cpu).testBit i
      · rw [hb] at hi; simp at hi
      · rfl
  · rintro ⟨i, hlt, hb⟩ h0
    have := congrArg (fun x => Nat.testBit x i) h0
    simp only [testBit_and_not, testBit_class_and_below, Nat.zero_testBit, hb] at this
    have hn : ¬ i ≤ (st.irq_desc irq).thr_prio := by omega
    simp [hn] at this

theorem higher_pending_false_iff (cpu irq : Nat) (st : IrqdState) :
    higher_pending cpu irq st = false ↔
      ∀ i, (st.irq_desc irq).thr_prio < i →
        test_bit i (st.pending_irqthread_mask cpu) = false := by
  constructor
  · intro h i hi
    cases hb : test_bit i (st.pending_irqthread_mask cpu)
    · rfl
    · have := (higher_pending_iff cpu irq st).2 ⟨i, hi, hb⟩
      rw [h] at this; cases this
  · intro h
    cases hh : higher_pending cpu irq st
    · rfl
    · obtain ⟨i, hi, hb⟩ := (higher_pending_iff cpu irq st).1 hh
      rw [h i hi] at hb; cases hb

theorem do_irqd_pass_ready (K : Consts) (sched : Nat → IrqdState → IrqdState)
    (cpu irq fuel : Nat) (st : IrqdState)
    (hs : (st.irq_desc irq).status &&& K.IRQ_SCHEDULED ≠ 0)
    (hh : higher_pending cpu irq st = false) :
    do_irqd_pass K sched cpu irq fuel st = some (do_irqd_serve K cpu irq st) := by
  simp [do_irqd_pass, do_irqd_wake, hs, hh]

/-! ## Kicks followed by one pass of the worker -/

/-- C12: from a state where the descriptor of the IRQ is idle, the pending
count of its class is 0 and no higher class has its mask bit set, `N >= 1`
calls of `kick_irqd` followed by one iteration of the loop of `do_irqd` for
the IRQ complete the iteration (whatever the fuel and the rest of the system)
and leave the pending count of the class at 0, the bit of the class clear in
the pending mask and SCHEDULED clear, the deferred handler having been invoked
exactly once and the worker not having suspended. -/
theorem kick_then_pass (K : Consts) (sched : Nat → IrqdState → IrqdState)
    (cpu irq fuel : Nat) (st : IrqdState) (N : Nat)
    (hK : K.IRQ_SCHEDULED ≠ 0)
    (hidle : (st.irq_desc irq).status &&& K.IRQ_SCHEDULED = 0)
    (hcount : st.pending_irq_count cpu (st.irq_desc irq).thr_prio = 0)
    (hhigh : ∀ i, (st.irq_desc irq).thr_prio < i →
      test_bit i (st.pending_irqthread_mask cpu) = false)
    (hN : 1 ≤ N) :
    ∃ r, do_irqd_pass K sched cpu irq fuel (kick_irqd_times K cpu irq N st).state = some r ∧
      r.state.pending_irq_count cpu (st.irq_desc irq).thr_prio = 0 ∧
      test_bit (st.irq_desc irq).thr_prio (r.state.pending_irqthread_mask cpu) = false ∧
      (r.state.irq_desc irq).status &&& K.IRQ_SCHEDULED = 0 ∧
      r.trace = [IrqdEvent.thr_handler (st.irq_desc irq).thr_handler irq] := by
  have hst : (kick_irqd_times K cpu irq N st).state = (kick_irqd K cpu irq st).state := by
    obtain ⟨n, rfl⟩ : ∃ n, N = n + 1 := ⟨N - 1, by omega⟩
    simp only [kick_irqd_times]
    rw [kick_irqd_times_scheduled K cpu irq n _ (kick_irqd_sets_scheduled K cpu irq st hK)]
  have hs := kick_irqd_sets_scheduled K cpu irq st hK
  rw [hst]
  have hh : higher_pending cpu irq (kick_irqd K cpu irq st).state = false := by
    rw [higher_pending_false_iff]
    intro i hi
    rw [kick_irqd_idle K cpu irq st hidle] at hi ⊢
    simp only [if_true] at hi ⊢
    unfold test_bit
    rw [Nat.testBit_or, testBit_class]
    have h1 := hhigh i hi
    unfold test_bit at h1
    have h2 : ¬ (st.irq_desc irq).thr_prio = i := by omega
    simp [h1, h2]
  refine ⟨_, do_irqd_pass_ready K sched cpu irq fuel _ hs hh, ?_, ?_, ?_, ?_⟩
  · rw [kick_irqd_idle K cpu irq st hidle]
    simp [do_irqd_serve, hcount]
  · rw [kick_irqd_idle K cpu irq st hidle]
    simp [do_irqd_serve, hcount, test_bit, testBit_and_not, testBit_class]
  · rw [kick_irqd_idle K cpu irq st hidle]
    simp [do_irqd_serve, and_not_and_self]
  · rw [kick_irqd_idle K cpu irq st hidle]
    simp [do_irqd_serve]

theorem kick_then_pass_witness :
    ∃ r, do_irqd_pass K0 (fun _ s => s) 0 9 0 (kick_irqd_times K0 0 9 3 sd0).state = some r ∧
      r.state.pending_irq_count 0 (sd0.irq_desc 9).thr_prio = 0 ∧
      test_bit (sd0.irq_desc 9).thr_prio (r.state.pending_irqthread_mask 0) = false ∧
      (r.state.irq_desc 9).status &&& K0.IRQ_SCHEDULED = 0 ∧
      r.trace = [IrqdEvent.thr_handler (sd0.irq_desc 9).thr_handler 9] :=
  kick_then_pass K0 (fun _ s => s) 0 9 0 sd0 3 (by decide) (by decide) (by decide)
    (fun _ _ => by simp [sd0, test_bit]) (by decide)

/-! ## Priority among the workers -/

theorem do_irqd_resched_some (K : Consts) (sched : Nat → IrqdState → IrqdState)
    (cpu irq : Nat) :
    ∀ (fuel : Nat) (st : IrqdState) (r : IrqdOutcome),
      do_irqd_resched K sched cpu irq fuel st = some r →
      ∃ st1 k, higher_pending cpu irq st1 = false ∧
        r.state = (do_irqd_serve K cpu irq st1).state ∧
        r.trace = List.replicate k IrqdEvent.schedule ++
          [IrqdEvent.thr_handler (st1.irq_desc irq).thr_handler irq] := by
  intro fuel
  induction fuel with
  | zero => intro st r h; simp [do_irqd_resched] at h
  | succ fuel ih =>
    intro st r h
    simp only [do_irqd_resched] at h
    cases hh : higher_pending cpu irq (sched fuel st)
    · simp only [hh, do_irqd_wake] at h
      simp only [Bool.false_eq_true, if_false, Option.some.injEq] at h
      subst h
      exact ⟨sched fuel st, 0, hh, rfl, rfl⟩
    · simp only [hh, do_irqd_wake, if_true, Option.map_eq_some'] at h
      obtain ⟨r2, h2, rfl⟩ := h
      obtain ⟨st1, k, h3, h4, h5⟩ := ih _ _ h2
      refine ⟨st1, k + 1, h3, h4, ?_⟩
      simp only [h5, List.replicate_succ, List.cons_append, List.nil_append,
        List.singleton_append]

/-- C17: the worker of class `p` that runs while a bit above `p` is set in
the pending mask of its processor calls `schedule()` again and changes
nothing: the pending count is not decremented, SCHEDULED is not cleared, the
handler is not run. It runs its handler only in a state where no mask bit
above `p` is set, and with no such bit set it does serve its IRQ, whatever the
bits at or below `p`. In a completed iteration of the loop the handler runs
once, at the end, in such a state. -/
theorem priority_preserved (K : Consts) (cpu irq : Nat) (st : IrqdState) :
    ((∃ i, (st.irq_desc irq).thr_prio < i ∧
        test_bit i (st.pending_irqthread_mask cpu) = true) →
      (do_irqd_wake K cpu irq st).state = st ∧
      (do_irqd_wake K cpu irq st).trace = [IrqdEvent.schedule]) ∧
    (∀ h j, IrqdEvent.thr_handler h j ∈ (do_irqd_wake K cpu irq st).trace →
      ∀ i, (st.irq_desc irq).thr_prio < i →
        test_bit i (st.pending_irqthread_mask cpu) = false) ∧
    ((∀ i, (st.irq_desc irq).thr_prio < i →
        test_bit i (st.pending_irqthread_mask cpu) = false) →
      do_irqd_wake K cpu irq st = do_irqd_serve K cpu irq st ∧
      (do_irqd_wake K cpu irq st).trace =
        [IrqdEvent.thr_handler (st.irq_desc irq).thr_handler irq]) ∧
    (∀ (sched : Nat → IrqdState → IrqdState) (fuel : Nat) (r : IrqdOutcome),
      do_irqd_pass K sched cpu irq fuel st = some r →
      ∃ st1 k,
        (∀ i, (st1.irq_desc irq).thr_prio < i →
          test_bit i (st1.pending_irqthread_mask cpu) = false) ∧
        r.state = (do_irqd_serve K cpu irq st1).state ∧
        r.trace = List.replicate k IrqdEvent.schedule ++
          [IrqdEvent.thr_handler (st1.irq_desc irq).thr_handler irq]) := by
  refine ⟨?_, ?_, ?_, ?_⟩
  · intro h
    have hh := (higher_pending_iff cpu irq st).2 h
    simp [do_irqd_wake, hh]
  · intro h j hmem
    cases hh : higher_pending cpu irq st
    · exact (higher_pending_false_iff cpu irq st).1 hh
    · simp [do_irqd_wake, hh] at hmem
  · intro h
    have hh := (higher_pending_false_iff cpu irq st).2 h
    simp [do_irqd_wake, hh, do_irqd_serve]
  · intro sched fuel r h
    unfold do_irqd_pass at h
    split at h
    · simp only [Option.map_eq_some'] at h
      obtain ⟨r2, h2, rfl⟩ := h
      obtain ⟨st1, k, h3, h4, h5⟩ := do_irqd_resched_some K sched cpu irq _ _ _ h2
      refine ⟨st1, k + 1, (higher_pending_false_iff cpu irq st1).1 h3, h4, ?_⟩
      simp only [h5, List.replicate_succ, List.cons_append]
    · cases hh : higher_pending cpu irq st
      · simp only [hh, do_irqd_wake, Bool.false_eq_true, if_false, Option.some.injEq] at h
        subst h
        exact ⟨st, 0, (higher_pending_false_iff cpu irq st).1 hh, rfl, rfl⟩
      · simp only [hh, do_irqd_wake, if_true, Option.map_eq_some'] at h
        obtain ⟨r2, h2, rfl⟩ := h
        obtain ⟨st1, k, h3, h4, h5⟩ := do_irqd_resched_some K sched cpu irq _ _ _ h2
        refine ⟨st1, k + 1, (higher_pending_false_iff cpu irq st1).1 h3, h4, ?_⟩
        simp only [h5, List.replicate_succ, List.cons_append, List.nil_append,
          List.singleton_append]

theorem priority_preserved_witness :
    (do_irqd_wake K0 0 9 sd1).state = sd1 ∧
      (do_irqd_wake K0 0 9 sd1).trace = [IrqdEvent.schedule] :=
  (priority_preserved K0 0 9 sd1).1 ⟨3, by decide, by decide⟩

/-! ## The bookkeeping invariant -/

theorem test_bit_or_class (w p i : Nat) :
    test_bit i (w ||| 1 <<< p) = (test_bit i w || decide (p = i)) := by
  unfold test_bit
  rw [Nat.testBit_or, testBit_class]

theorem test_bit_and_not_class (w p i : Nat) :
    test_bit i (and_not w (1 <<< p)) = (test_bit i w && !decide (p = i)) := by
  unfold test_bit
  rw [testBit_and_not, testBit_class]

theorem countP_range_flip (q q2 : Nat → Bool) (i0 : Nat)
    (hagree : ∀ i, i ≠ i0 → q2 i = q i) (h0 : q i0 = false) (h1 : q2 i0 = true) :
    ∀ n, (List.range n).countP q2 = (List.range n).countP q + (if i0 < n then 1 else 0) := by
  intro n
  induction n with
  | zero => simp
  | succ n ih =>
    rw [List.range_succ, List.countP_append, List.countP_append, ih,
      List.countP_singleton, List.countP_singleton]
    by_cases hn : n = i0
    · subst hn
      simp [h0, h1]
    · rw [hagree n hn]
      have e : (i0 < n + 1) = (i0 < n) := by
        apply propext
        constructor
        · intro h; omega
        · intro h; omega
      simp only [e]
      omega

theorem countP_range_congr (q q2 : Nat → Bool) (h : ∀ i, q2 i = q i) (n : Nat) :
    (List.range n).countP q2 = (List.range n).countP q := by
  have : q2 = q := funext h
  rw [this]

theorem bookkeeping_kick (K : Consts) (cpu n irq : Nat) (st : IrqdState)
    (hK : K.IRQ_SCHEDULED ≠ 0) (hirq : irq < n) (hinv : Bookkeeping K cpu n st) :
    Bookkeeping K cpu n (kick_irqd K cpu irq st).state := by
  by_cases hs : (st.irq_desc irq).status &&& K.IRQ_SCHEDULED = 0
  · rw [kick_irqd_idle K cpu irq st hs]
    intro p
    obtain ⟨hc, hm⟩ := hinv p
    by_cases hp : p = (st.irq_desc irq).thr_prio
    · subst hp
      have hcount : scheduled_count K n (st.irq_desc irq).thr_prio
          { irq_desc := fun i =>
              if i = irq then
                { st.irq_desc irq with
                  status := (st.irq_desc irq).status ||| K.IRQ_SCHEDULED }
              else st.irq_desc i
            pending_irqthread_mask := fun c =>
              if c = cpu then
                st.pending_irqthread_mask cpu ||| (1 <<< (st.irq_desc irq).thr_prio)
              else st.pending_irqthread_mask c
            pending_irq_count := fun c p =>
              if c = cpu ∧ p = (st.irq_desc irq).thr_prio then
                st.pending_irq_count cpu (st.irq_desc irq).thr_prio + 1
              else st.pending_irq_count c p } =
          scheduled_count K n (st.irq_desc irq).thr_prio st + 1 := by
        unfold scheduled_count
        rw [countP_range_flip (scheduled_in_class K (st.irq_desc irq).thr_prio st) _ irq
          ?_ ?_ ?_ n]
        · simp [hirq]
        · intro i hi
          simp [scheduled_in_class, hi]
        · simp [scheduled_in_class, hs]
        · simp [scheduled_in_class, scheduled_after_or _ _ hK]
      constructor
      · rw [hcount]
        simp only [and_self, if_true]
        rw [hc]
        push_cast
        rfl
      · simp only [and_self, if_true]
        constructor
        · intro _
          rw [hc]
          have : (0 : Int) ≤ (scheduled_count K n (st.irq_desc irq).thr_prio st : Int) :=
            Int.ofNat_nonneg _
          omega
        · intro _
          rw [test_bit_or_class]
          simp
    · have hcount : scheduled_count K n p
          { irq_desc := fun i =>
              if i = irq then
                { st.irq_desc irq with
                  status := (st.irq_desc irq).status ||| K.IRQ_SCHEDULED }
              else st.irq_desc i
            pending_irqthread_mask := fun c =>
              if c = cpu then
                st.pending_irqthread_mask cpu ||| (1 <<< (st.irq_desc irq).thr_prio)
              else st.pending_irqthread_mask c
            pending_irq_count := fun c p =>
              if c = cpu ∧ p = (st.irq_desc irq).thr_prio then
                st.pending_irq_count cpu (st.irq_desc irq).thr_prio + 1
              else st.pending_irq_count c p } =
          scheduled_count K n p st := by
        unfold scheduled_count
        apply countP_range_congr
        intro i
        by_cases hi : i = irq
        · subst hi
          have : ¬ (st.irq_desc i).thr_prio = p := fun h => hp h.symm
          simp [scheduled_in_class, this]
        · simp [scheduled_in_class, hi]
      constructor
      · rw [hcount]
        simp only [hp, and_false, if_false]
        exact hc
      · simp only [hp, and_false, if_false, if_true]
        rw [← hm]
        have : ¬ (st.irq_desc irq).thr_prio = p := fun h => hp h.symm
        rw [test_bit_or_class]
        simp [this]
  · rw [kick_irqd_scheduled K cpu irq st hs]
    exact hinv

theorem scheduled_count_serve_class (K : Consts) (cpu n irq : Nat) (st : IrqdState)
    (hirq : irq < n) (hs : (st.irq_desc irq).status &&& K.IRQ_SCHEDULED ≠ 0) :
    scheduled_count K n (st.irq_desc irq).thr_prio st =
      scheduled_count K n (st.irq_desc irq).thr_prio (do_irqd_serve K cpu irq st).state + 1 := by
  unfold scheduled_count
  rw [countP_range_flip
    (scheduled_in_class K (st.irq_desc irq).thr_prio (do_irqd_serve K cpu irq st).state)
    (scheduled_in_class K (st.irq_desc irq).thr_prio st) irq ?_ ?_ ?_ n]
  · simp [hirq]
  · intro i hi
    simp [scheduled_in_class, do_irqd_serve, hi]
  · simp [scheduled_in_class, do_irqd_serve, and_not_and_self]
  · simp [scheduled_in_class, hs]

theorem scheduled_count_serve_other (K : Consts) (cpu n irq p : Nat) (st : IrqdState)
    (hp : p ≠ (st.irq_desc irq).thr_prio) :
    scheduled_count K n p (do_irqd_serve K cpu irq st).state = scheduled_count K n p st := by
  unfold scheduled_count
  apply countP_range_congr
  intro i
  by_cases hi : i = irq
  · subst hi
    have : ¬ (st.irq_desc i).thr_prio = p := fun h => hp h.symm
    simp [scheduled_in_class, do_irqd_serve, this]
  · simp [scheduled_in_class, do_irqd_serve, hi]

theorem serve_count (K : Consts) (cpu irq p : Nat) (st : IrqdState) :
    (do_irqd_serve K cpu irq st).state.pending_irq_count cpu p =
      if p = (st.irq_desc irq).thr_prio then
        st.pending_irq_count cpu (st.irq_desc irq).thr_prio - 1
      else st.pending_irq_count cpu p := by
  simp [do_irqd_serve]

theorem serve_mask (K : Consts) (cpu irq : Nat) (st : IrqdState) :
    (do_irqd_serve K cpu irq st).state.pending_irqthread_mask cpu =
      if st.pending_irq_count cpu (st.irq_desc irq).thr_prio - 1 = 0 then
        and_not (st.pending_irqthread_mask cpu) (1 <<< (st.irq_desc irq).thr_prio)
      else st.pending_irqthread_mask cpu := by
  simp [do_irqd_serve]

theorem bookkeeping_serve (K : Consts) (cpu n irq : Nat) (st : IrqdState)
    (hirq : irq < n) (hs : (st.irq_desc irq).status &&& K.IRQ_SCHEDULED ≠ 0)
    (hinv : Bookkeeping K cpu n st) :
    Bookkeeping K cpu n (do_irqd_serve K cpu irq st).state := by
  intro p
  obtain ⟨hc, hm⟩ := hinv p
  rw [serve_count, serve_mask]
  by_cases hp : p = (st.irq_desc irq).thr_prio
  · subst hp
    have h1 := scheduled_count_serve_class K cpu n irq st hirq hs
    have hval : st.pending_irq_count cpu (st.irq_desc irq).thr_prio - 1 =
        (scheduled_count K n (st.irq_desc irq).thr_prio (do_irqd_serve K cpu irq st).state :
          Int) := by
      rw [hc, h1]; push_cast; omega
    have hpos : 0 < st.pending_irq_count cpu (st.irq_desc irq).thr_prio := by
      rw [hc, h1]; push_cast; omega
    have hbit := hm.2 hpos
    rw [if_pos rfl]
    refine ⟨hval, ?_⟩
    by_cases hz : st.pending_irq_count cpu (st.irq_desc irq).thr_prio - 1 = 0
    · rw [if_pos hz, test_bit_and_not_class, hz]
      simp
    · rw [if_neg hz, hbit]
      constructor
      · intro _; omega
      · intro _; rfl
  · have h1 := scheduled_count_serve_other K cpu n irq p st hp
    rw [if_neg hp, h1]
    refine ⟨hc, ?_⟩
    rw [← hm]
    have hne : ¬ (st.irq_desc irq).thr_prio = p := fun h => hp h.symm
    split
    · rw [test_bit_and_not_class]
      simp [hne]
    · rfl

theorem bookkeeping_step (K : Consts) (cpu n : Nat) (op : IrqdOp) (st : IrqdState)
    (hK : K.IRQ_SCHEDULED ≠ 0) (hinv : Bookkeeping K cpu n st)
    (hadm : Admissible K cpu n [op] st) :
    Bookkeeping K cpu n (irqd_step K cpu op st) := by
  cases op with
  | kick irq =>
    simp only [Admissible] at hadm
    exact bookkeeping_kick K cpu n irq st hK hadm.1 hinv
  | pass irq =>
    simp only [Admissible] at hadm
    simp only [irqd_step, do_irqd_wake]
    split
    · exact hinv
    · exact bookkeeping_serve K cpu n irq st hadm.1 hadm.2.1 hinv

theorem bookkeeping_run (K : Consts) (cpu n : Nat) (hK : K.IRQ_SCHEDULED ≠ 0)
    (ops : List IrqdOp) :
    ∀ st, Bookkeeping K cpu n st → Admissible K cpu n ops st →
      Bookkeeping K cpu n (irqd_run K cpu ops st) := by
  induction ops with
  | nil => intro st h _; exact h
  | cons op rest ih =>
    intro st hinv hadm
    simp only [irqd_run]
    cases op with
    | kick irq =>
      simp only [Admissible] at hadm
      exact ih _ (bookkeeping_step K cpu n _ st hK hinv (by simp [Admissible, hadm.1])) hadm.2
    | pass irq =>
      simp only [Admissible] at hadm
      exact ih _ (bookkeeping_step K cpu n _ st hK hinv
        (by simp [Admissible, hadm.1, hadm.2.1])) hadm.2.2

theorem bookkeeping_initial (K : Consts) (cpu n : Nat) (st : IrqdState)
    (hidle : ∀ i, i < n → (st.irq_desc i).status &&& K.IRQ_SCHEDULED = 0)
    (hcount : ∀ p, st.pending_irq_count cpu p = 0)
    (hmask : st.pending_irqthread_mask cpu = 0) :
    Bookkeeping K cpu n st := by
  intro p
  have h0 : scheduled_count K n p st = 0 := by
    unfold scheduled_count
    rw [List.countP_eq_zero]
    intro i hi
    simp [scheduled_in_class, hidle i (List.mem_range.1 hi)]
  rw [h0, hcount p, hmask]
  simp [test_bit]

/-- C20: on one processor, from a state where every descriptor is idle, every
pending count is 0 and the pending mask is 0, after every interleaving of
calls of `kick_irqd` and of runs of the workers in which a worker runs only
while its descriptor is SCHEDULED, for every priority class `p` the pending
count of `p` is the number of descriptors of class `p` whose SCHEDULED flag is
set (so it is not negative), and bit `p` of the pending mask is set exactly
when that count is positive. -/
theorem deferral_bookkeeping (K : Consts) (cpu n : Nat) (st : IrqdState)
    (ops : List IrqdOp)
    (hK : K.IRQ_SCHEDULED ≠ 0)
    (hidle : ∀ i, i < n → (st.irq_desc i).status &&& K.IRQ_SCHEDULED = 0)
    (hcount : ∀ p, st.pending_irq_count cpu p = 0)
    (hmask : st.pending_irqthread_mask cpu = 0)
    (hadm : Admissible K cpu n ops st) :
    ∀ p,
      (irqd_run K cpu ops st).pending_irq_count cpu p =
        (scheduled_count K n p (irqd_run K cpu ops st) : Int) ∧
      0 ≤ (irqd_run K cpu ops st).pending_irq_count cpu p ∧
      (test_bit p ((irqd_run K cpu ops st).pending_irqthread_mask cpu) = true ↔
        0 < (irqd_run K cpu ops st).pending_irq_count cpu p) := by
  intro p
  have h := bookkeeping_run K cpu n hK ops st
    (bookkeeping_initial K cpu n st hidle hcount hmask) hadm p
  refine ⟨h.1, ?_, h.2⟩
  rw [h.1]
  exact Int.ofNat_nonneg _

theorem deferral_bookkeeping_witness :
    (irqd_run K0 0
        [IrqdOp.kick 9, IrqdOp.kick 4, IrqdOp.kick 9, IrqdOp.pass 9] sd0).pending_irq_count 0 2 =
        (scheduled_count K0 16 2
          (irqd_run K0 0 [IrqdOp.kick 9, IrqdOp.kick 4, IrqdOp.kick 9, IrqdOp.pass 9] sd0) :
          Int) ∧
      0 ≤ (irqd_run K0 0
        [IrqdOp.kick 9, IrqdOp.kick 4, IrqdOp.kick 9, IrqdOp.pass 9] sd0).pending_irq_count 0 2 ∧
      (test_bit 2 ((irqd_run K0 0
          [IrqdOp.kick 9, IrqdOp.kick 4, IrqdOp.kick 9, IrqdOp.pass 9]
          sd0).pending_irqthread_mask 0) = true ↔
        0 < (irqd_run K0 0
          [IrqdOp.kick 9, IrqdOp.kick 4, IrqdOp.kick 9, IrqdOp.pass 9]
          sd0).pending_irq_count 0 2) :=
  deferral_bookkeeping K0 0 16 sd0
    [IrqdOp.kick 9, IrqdOp.kick 4, IrqdOp.kick 9, IrqdOp.pass 9]
    (by decide) (fun _ _ => (by decide : (0 : Nat) &&& K0.IRQ_SCHEDULED = 0)) (fun _ => rfl) rfl
    (by simp only [Admissible]; decide) 2

/-! ## Starting an IRQ thread twice, and failing to -/

theorem start_irq_thread_threaded (T : ThreadConsts) (created : Option Nat) (irq desc : Nat)
    (st : ThreadState) (h : (st.irq_desc desc).thread.isSome = true) :
    ipipe_start_irq_thread T created irq desc st = ⟨0, [], st⟩ := by
  simp [ipipe_start_irq_thread, h]

theorem start_irq_thread_disabled (T : ThreadConsts) (created : Option Nat) (irq desc : Nat)
    (st : ThreadState) (h : st.create_irq_threads = 0) :
    ipipe_start_irq_thread T created irq desc st = ⟨0, [], st⟩ := by
  simp [ipipe_start_irq_thread, h]

theorem start_irq_thread_created (T : ThreadConsts) (t irq desc : Nat) (st : ThreadState)
    (h1 : (st.irq_desc desc).thread = none) (h2 : st.create_irq_threads ≠ 0) :
    ipipe_start_irq_thread T (some t) irq desc st =
      ⟨0, [ThreadEvent.kthread_create irq desc, ThreadEvent.wake_up_process (some t)],
       { create_irq_threads := st.create_irq_threads
         irq_desc := fun i =>
           if i = desc then
             { st.irq_desc desc with thread := some t, thr_handler := st.root_handler irq }
           else st.irq_desc i
         root_handler := fun i =>
           if i = irq then some T.kick_irqd else st.root_handler i }⟩ := by
  simp only [ipipe_start_irq_thread, h1, Option.isSome_none, Bool.false_or, beq_iff_eq, h2,
    if_false, if_true]
  congr 2
  funext i
  split <;> rfl

/-- C13: `ipipe_start_irq_thread` is idempotent. On a descriptor whose thread
is set a call returns 0 and changes nothing: no worker is created or woken,
`thr_handler` and the handler of the root domain are as before. So a call
that returned a thread, followed by a second call, leaves the state of the
first, with the handler of the root domain still `kick_irqd` when the first
call installed it, and the `thr_handler` of the descriptor does not become
`kick_irqd`. -/
theorem start_irq_thread_idempotent (T : ThreadConsts) (irq desc : Nat) (st : ThreadState) :
    (∀ created, (st.irq_desc desc).thread.isSome = true →
      (ipipe_start_irq_thread T created irq desc st).ret = 0 ∧
      (ipipe_start_irq_thread T created irq desc st).trace = [] ∧
      (ipipe_start_irq_thread T created irq desc st).state = st) ∧
    (∀ t created2,
      ipipe_start_irq_thread T created2 irq desc
          (ipipe_start_irq_thread T (some t) irq desc st).state =
        ⟨0, [], (ipipe_start_irq_thread T (some t) irq desc st).state⟩) ∧
    (∀ t created2, (st.irq_desc desc).thread = none → st.create_irq_threads ≠ 0 →
      (ipipe_start_irq_thread T created2 irq desc
          (ipipe_start_irq_thread T (some t) irq desc st).state).state.root_handler irq =
        some T.kick_irqd) ∧
    (∀ t created2, (st.irq_desc desc).thr_handler ≠ some T.kick_irqd →
      st.root_handler irq ≠ some T.kick_irqd →
      ((ipipe_start_irq_thread T created2 irq desc
          (ipipe_start_irq_thread T (some t) irq desc st).state).state.irq_desc
            desc).thr_handler ≠ some T.kick_irqd) := by
  have second : ∀ t created2,
      ipipe_start_irq_thread T created2 irq desc
          (ipipe_start_irq_thread T (some t) irq desc st).state =
        ⟨0, [], (ipipe_start_irq_thread T (some t) irq desc st).state⟩ := by
    intro t created2
    by_cases h1 : (st.irq_desc desc).thread.isSome = true
    · rw [start_irq_thread_threaded T (some t) irq desc st h1]
      exact start_irq_thread_threaded T created2 irq desc st h1
    · by_cases h2 : st.create_irq_threads = 0
      · rw [start_irq_thread_disabled T (some t) irq desc st h2]
        exact start_irq_thread_disabled T created2 irq desc st h2
      · have h1n : (st.irq_desc desc).thread = none := by
          cases h : (st.irq_desc desc).thread
          · rfl
          · rw [h] at h1; simp at h1
        apply start_irq_thread_threaded
        rw [start_irq_thread_created T t irq desc st h1n h2]
        simp
  refine ⟨?_, second, ?_, ?_⟩
  · intro created h
    rw [start_irq_thread_threaded T created irq desc st h]
    exact ⟨rfl, rfl, rfl⟩
  · intro t created2 h1 h2
    rw [second, start_irq_thread_created T t irq desc st h1 h2]
    simp
  · intro t created2 hd hr
    rw [second]
    by_cases h1 : (st.irq_desc desc).thread.isSome = true
    · rw [start_irq_thread_threaded T (some t) irq desc st h1]
      exact hd
    · by_cases h2 : st.create_irq_threads = 0
      · rw [start_irq_thread_disabled T (some t) irq desc st h2]
        exact hd
      · have h1n : (st.irq_desc desc).thread = none := by
          cases h : (st.irq_desc desc).thread
          · rfl
          · rw [h] at h1; simp at h1
        rw [start_irq_thread_created T t irq desc st h1n h2]
        simpa using hr

theorem start_irq_thread_idempotent_witness :
    ((ipipe_start_irq_thread T0 (some 41) 9 9
        (ipipe_start_irq_thread T0 (some 40) 9 9 ts0).state).state.irq_desc 9).thr_handler ≠
      some T0.kick_irqd :=
  (start_irq_thread_idempotent T0 9 9 ts0).2.2.2 40 (some 41) (by decide) (by decide)

/-- The path of lines 395-398, taken when `kthread_create` returns NULL:
`ipipe_start_irq_thread` returns `-ENOMEM` after reporting the failure and
leaves the whole state as it was: the handler of the root domain,
`thr_handler` and the unset `thread` of the descriptor; a later call calls
`kthread_create` again and, given a thread, succeeds. -/
theorem start_irq_thread_nomem (T : ThreadConsts) (irq desc : Nat) (st : ThreadState)
    (h1 : (st.irq_desc desc).thread = none) (h2 : st.create_irq_threads ≠ 0) :
    (ipipe_start_irq_thread T none irq desc st).ret = -(T.ENOMEM : Int) ∧
    (ipipe_start_irq_thread T none irq desc st).trace =
      [ThreadEvent.kthread_create irq desc, ThreadEvent.printk irq] ∧
    (ipipe_start_irq_thread T none irq desc st).state = st ∧
    (ipipe_start_irq_thread T none irq desc st).state.root_handler irq =
      st.root_handler irq ∧
    ((ipipe_start_irq_thread T none irq desc st).state.irq_desc desc).thr_handler =
      (st.irq_desc desc).thr_handler ∧
    ((ipipe_start_irq_thread T none irq desc st).state.irq_desc desc).thread = none ∧
    (∀ t,
      (ipipe_start_irq_thread T (some t) irq desc
        (ipipe_start_irq_thread T none irq desc st).state).ret = 0 ∧
      ThreadEvent.kthread_create irq desc ∈
        (ipipe_start_irq_thread T (some t) irq desc
          (ipipe_start_irq_thread T none irq desc st).state).trace ∧
      ((ipipe_start_irq_thread T (some t) irq desc
        (ipipe_start_irq_thread T none irq desc st).state).state.irq_desc desc).thread =
          some t) := by
  have hst : (ipipe_start_irq_thread T none irq desc st).state = st := by
    simp only [ipipe_start_irq_thread, h1, Option.isSome_none, Bool.false_or, beq_iff_eq, h2,
      if_false]
    cases st with
    | mk c d r =>
      simp only [ThreadState.mk.injEq, true_and, and_true]
      funext i
      by_cases hi : i = desc
      · subst hi
        simp only [if_true]
        simp only [] at h1
        cases hd : d i with
        | mk a b c2 e f g h =>
          rw [hd] at h1
          simp only [] at h1
          subst h1
          rfl
      · simp [hi]
  refine ⟨?_, ?_, hst, ?_, ?_, ?_, ?_⟩
  · simp [ipipe_start_irq_thread, h1, h2]
  · simp [ipipe_start_irq_thread, h1, h2]
  · rw [hst]
  · rw [hst]
  · rw [hst]; exact h1
  · intro t
    rw [hst, start_irq_thread_created T t irq desc st h1 h2]
    simp

theorem start_irq_thread_nomem_witness :
    (ipipe_start_irq_thread T0 none 9 9 ts0).ret = -(T0.ENOMEM : Int) ∧
      (ipipe_start_irq_thread T0 none 9 9 ts0).state = ts0 :=
  ⟨(start_irq_thread_nomem T0 9 9 ts0 rfl (by decide)).1,
   (start_irq_thread_nomem T0 9 9 ts0 rfl (by decide)).2.2.1⟩

/-- C14, on the code: a `kthread_create` that cannot create the worker returns
the error pointer `ERR_PTR(-ENOMEM)`, which the test `desc->thread == NULL` of
line 395 does not catch. On a descriptor without thread, with thread creation
enabled, the call then returns 0 and not `-ENOMEM`, reports nothing, stores the
error pointer in `desc->thread` and wakes it, moves the handler of the root
domain to `thr_handler` and installs `kick_irqd` in its place; a later call
finds `desc->thread` set, returns 0 and does not call `kthread_create` again. -/
theorem start_irq_thread_err_ptr :
    (ts0.irq_desc 9).thread = none ∧ ts0.create_irq_threads ≠ 0 ∧
      ts0.root_handler 9 = some 77 ∧
      ERR_PTR T0.ENOMEM = 4294967284 ∧
      (ipipe_start_irq_thread T0 (some (ERR_PTR T0.ENOMEM)) 9 9 ts0).ret = 0 ∧
      (ipipe_start_irq_thread T0 (some (ERR_PTR T0.ENOMEM)) 9 9 ts0).ret ≠
        -(T0.ENOMEM : Int) ∧
      (ipipe_start_irq_thread T0 (some (ERR_PTR T0.ENOMEM)) 9 9 ts0).trace =
        [ThreadEvent.kthread_create 9 9,
          ThreadEvent.wake_up_process (some (ERR_PTR T0.ENOMEM))] ∧
      ((ipipe_start_irq_thread T0 (some (ERR_PTR T0.ENOMEM)) 9 9 ts0).state.irq_desc
        9).thread = some (ERR_PTR T0.ENOMEM) ∧
      ((ipipe_start_irq_thread T0 (some (ERR_PTR T0.ENOMEM)) 9 9 ts0).state.irq_desc
        9).thr_handler = some 77 ∧
      (ipipe_start_irq_thread T0 (some (ERR_PTR T0.ENOMEM)) 9 9 ts0).state.root_handler 9 =
        some T0.kick_irqd ∧
      (ipipe_start_irq_thread T0 (some 40) 9 9
        (ipipe_start_irq_thread T0 (some (ERR_PTR T0.ENOMEM)) 9 9 ts0).state).ret = 0 ∧
      (ipipe_start_irq_thread T0 (some 40) 9 9
        (ipipe_start_irq_thread T0 (some (ERR_PTR T0.ENOMEM)) 9 9 ts0).state).trace = [] := by
  decide

/-! ## The reference counts of the priority classes -/

theorem test_bit_set_bit (p i w : Nat) :
    test_bit i (set_bit p w) = (test_bit i w || decide (p = i)) := by
  unfold set_bit
  exact test_bit_or_class w p i

theorem test_bit_clear_bit (p i w : Nat) :
    test_bit i (clear_bit p w) = (test_bit i w && !decide (p = i)) := by
  unfold clear_bit
  exact test_bit_and_not_class w p i

theorem enable_lvdepth (root ipd irq p : Nat) (st : LvState) :
    (__ipipe_enable_irqdesc root ipd irq st).__ipipe_irq_lvdepth p =
      if ipd ≠ root ∧ p = (st.irq_desc irq).ic_prio then st.__ipipe_irq_lvdepth p + 1
      else st.__ipipe_irq_lvdepth p := by
  unfold __ipipe_enable_irqdesc
  by_cases h : ipd = root
  · simp [h]
  · by_cases hp : p = (st.irq_desc irq).ic_prio
    · subst hp
      simp only [ne_eq, h, not_false_eq_true, if_true, and_self]
      split <;> simp
    · simp only [ne_eq, h, not_false_eq_true, if_true, hp, and_false, if_false]
      split <;> simp [hp]

theorem enable_lvmask (root ipd irq : Nat) (st : LvState) :
    (__ipipe_enable_irqdesc root ipd irq st).__ipipe_irq_lvmask =
      if ipd ≠ root ∧ st.__ipipe_irq_lvdepth (st.irq_desc irq).ic_prio = 0 then
        set_bit (st.irq_desc irq).ic_prio st.__ipipe_irq_lvmask
      else st.__ipipe_irq_lvmask := by
  unfold __ipipe_enable_irqdesc
  by_cases h : ipd = root
  · simp [h]
  · by_cases h0 : st.__ipipe_irq_lvdepth (st.irq_desc irq).ic_prio = 0
    · simp [h, h0]
    · have : ¬ st.__ipipe_irq_lvdepth (st.irq_desc irq).ic_prio + 1 = 1 := by omega
      simp [h, h0, this]

theorem disable_lvdepth (root ipd irq p : Nat) (st : LvState) :
    (__ipipe_disable_irqdesc root ipd irq st).__ipipe_irq_lvdepth p =
      if ipd ≠ root ∧ p = (st.irq_desc irq).ic_prio then st.__ipipe_irq_lvdepth p - 1
      else st.__ipipe_irq_lvdepth p := by
  unfold __ipipe_disable_irqdesc
  by_cases h : ipd = root
  · simp [h]
  · by_cases hp : p = (st.irq_desc irq).ic_prio
    · subst hp
      simp only [ne_eq, h, not_false_eq_true, if_true, and_self]
      split <;> simp
    · simp only [ne_eq, h, not_false_eq_true, if_true, hp, and_false, if_false]
      split <;> simp [hp]

theorem disable_lvmask (root ipd irq : Nat) (st : LvState) :
    (__ipipe_disable_irqdesc root ipd irq st).__ipipe_irq_lvmask =
      if ipd ≠ root ∧ st.__ipipe_irq_lvdepth (st.irq_desc irq).ic_prio = 1 then
        clear_bit (st.irq_desc irq).ic_prio st.__ipipe_irq_lvmask
      else st.__ipipe_irq_lvmask := by
  unfold __ipipe_disable_irqdesc
  by_cases h : ipd = root
  · simp [h]
  · by_cases h0 : st.__ipipe_irq_lvdepth (st.irq_desc irq).ic_prio = 1
    · simp [h, h0]
    · have : ¬ st.__ipipe_irq_lvdepth (st.irq_desc irq).ic_prio - 1 = 0 := by omega
      simp [h, h0, this]

/-- The invariant of the accounting: a bit of the mask is set exactly when the
counter of the class is positive. -/
theorem lv_step_invariant (root : Nat) (op : LvOp) (st : LvState)
    (hinv : ∀ p, test_bit p st.__ipipe_irq_lvmask = true ↔ 0 < st.__ipipe_irq_lvdepth p) :
    ∀ p, test_bit p (lv_step root op st).__ipipe_irq_lvmask = true ↔
      0 < (lv_step root op st).__ipipe_irq_lvdepth p := by
  intro p
  have hp := hinv p
  cases op with
  | enable ipd irq =>
    simp only [lv_step]
    rw [enable_lvdepth, enable_lvmask]
    by_cases h : ipd = root
    · simp [h, hp]
    · by_cases hq : p = (st.irq_desc irq).ic_prio
      · subst hq
        by_cases h0 : st.__ipipe_irq_lvdepth (st.irq_desc irq).ic_prio = 0
        · simp [h, h0, test_bit_set_bit]
        · simp only [ne_eq, h, not_false_eq_true, h0, and_false, if_false, and_self, if_true]
          rw [hp]
          constructor <;> intro _ <;> omega
      · have hne : ¬ (st.irq_desc irq).ic_prio = p := fun e => hq e.symm
        simp only [ne_eq, h, not_false_eq_true, hq, and_false, if_false, true_and]
        split
        · rw [test_bit_set_bit]; simp [hne, hp]
        · exact hp
  | disable ipd irq =>
    simp only [lv_step]
    rw [disable_lvdepth, disable_lvmask]
    by_cases h : ipd = root
    · simp [h, hp]
    · by_cases hq : p = (st.irq_desc irq).ic_prio
      · subst hq
        by_cases h0 : st.__ipipe_irq_lvdepth (st.irq_desc irq).ic_prio = 1
        · simp [h, h0, test_bit_clear_bit]
        · simp only [ne_eq, h, not_false_eq_true, h0, and_false, if_false, and_self, if_true]
          rw [hp]
          constructor <;> intro _ <;> omega
      · have hne : ¬ (st.irq_desc irq).ic_prio = p := fun e => hq e.symm
        simp only [ne_eq, h, not_false_eq_true, hq, and_false, if_false, true_and]
        split
        · rw [test_bit_clear_bit]; simp [hne, hp]
        · exact hp

theorem lv_run_invariant (root : Nat) (ops : List LvOp) :
    ∀ st : LvState,
      (∀ p, test_bit p st.__ipipe_irq_lvmask = true ↔ 0 < st.__ipipe_irq_lvdepth p) →
      ∀ p, test_bit p (lv_run root ops st).__ipipe_irq_lvmask = true ↔
        0 < (lv_run root ops st).__ipipe_irq_lvdepth p := by
  induction ops with
  | nil => intro st h; exact h
  | cons op rest ih =>
    intro st h
    simp only [lv_run]
    exact ih _ (lv_step_invariant root op st h)

/-- C15: from a state where every counter `__ipipe_irq_lvdepth[p]` is 0 and
every bit of `__ipipe_irq_lvmask` is clear, after every sequence of calls of
`__ipipe_enable_irqdesc` and `__ipipe_disable_irqdesc` (in particular those
made by non-root domains in which disables never outnumber the preceding
enables of their class), bit `p` of the mask is set exactly when the counter
of `p` is positive. For a non-root domain the bit of the class is set by the
enable that takes the counter from 0 to 1 and by no other enable, and cleared
by the disable that takes it from 1 to 0 and by no other disable. -/
theorem lvmask_tracks_lvdepth (root : Nat) (ops : List LvOp) (st : LvState)
    (h0 : ∀ p, st.__ipipe_irq_lvdepth p = 0 ∧ test_bit p st.__ipipe_irq_lvmask = false) :
    (∀ p, test_bit p (lv_run root ops st).__ipipe_irq_lvmask = true ↔
      0 < (lv_run root ops st).__ipipe_irq_lvdepth p) ∧
    (∀ (s : LvState) (ipd irq : Nat), ipd ≠ root →
      (s.__ipipe_irq_lvdepth (s.irq_desc irq).ic_prio = 0 →
        test_bit (s.irq_desc irq).ic_prio
            (__ipipe_enable_irqdesc root ipd irq s).__ipipe_irq_lvmask = true ∧
          (__ipipe_enable_irqdesc root ipd irq s).__ipipe_irq_lvdepth
            (s.irq_desc irq).ic_prio = 1) ∧
      (s.__ipipe_irq_lvdepth (s.irq_desc irq).ic_prio ≠ 0 →
        (__ipipe_enable_irqdesc root ipd irq s).__ipipe_irq_lvmask = s.__ipipe_irq_lvmask) ∧
      (s.__ipipe_irq_lvdepth (s.irq_desc irq).ic_prio = 1 →
        test_bit (s.irq_desc irq).ic_prio
            (__ipipe_disable_irqdesc root ipd irq s).__ipipe_irq_lvmask = false ∧
          (__ipipe_disable_irqdesc root ipd irq s).__ipipe_irq_lvdepth
            (s.irq_desc irq).ic_prio = 0) ∧
      (s.__ipipe_irq_lvdepth (s.irq_desc irq).ic_prio ≠ 1 →
        (__ipipe_disable_irqdesc root ipd irq s).__ipipe_irq_lvmask =
          s.__ipipe_irq_lvmask)) := by
  constructor
  · apply lv_run_invariant
    intro p
    rw [(h0 p).1, (h0 p).2]
    simp
  · intro s ipd irq hne
    refine ⟨?_, ?_, ?_, ?_⟩
    · intro h
      rw [enable_lvmask, enable_lvdepth]
      simp [hne, h, test_bit_set_bit]
    · intro h
      rw [enable_lvmask]
      simp [h]
    · intro h
      rw [disable_lvmask, disable_lvdepth]
      simp [hne, h, test_bit_clear_bit]
    · intro h
      rw [disable_lvmask]
      simp [h]

theorem lvmask_tracks_lvdepth_witness :
    test_bit 7 (lv_run 0
        [LvOp.enable 1 20, LvOp.enable 2 21, LvOp.disable 1 20] lv0).__ipipe_irq_lvmask = true ↔
      0 < (lv_run 0
        [LvOp.enable 1 20, LvOp.enable 2 21, LvOp.disable 1 20] lv0).__ipipe_irq_lvdepth 7 :=
  (lvmask_tracks_lvdepth 0 [LvOp.enable 1 20, LvOp.enable 2 21, LvOp.disable 1 20] lv0
    (fun _ => ⟨rfl, by simp [lv0, test_bit]⟩)).1 7

/-- C19: a call of `__ipipe_enable_irqdesc` or `__ipipe_disable_irqdesc` made
for the root domain changes no counter `__ipipe_irq_lvdepth[p]` and not the
mask `__ipipe_irq_lvmask`; the enable only resets the depth field of the
descriptor of the IRQ to 0, and the disable changes nothing at all. -/
theorem root_calls_not_counted (root irq : Nat) (st : LvState) :
    (∀ p, (__ipipe_enable_irqdesc root root irq st).__ipipe_irq_lvdepth p =
      st.__ipipe_irq_lvdepth p) ∧
    (__ipipe_enable_irqdesc root root irq st).__ipipe_irq_lvmask = st.__ipipe_irq_lvmask ∧
    (__ipipe_enable_irqdesc root root irq st).irq_desc irq =
      { st.irq_desc irq with depth := 0 } ∧
    (∀ i, i ≠ irq → (__ipipe_enable_irqdesc root root irq st).irq_desc i = st.irq_desc i) ∧
    __ipipe_disable_irqdesc root root irq st = st := by
  refine ⟨?_, ?_, ?_, ?_, ?_⟩
  · intro p; simp [__ipipe_enable_irqdesc]
  · simp [__ipipe_enable_irqdesc]
  · simp [__ipipe_enable_irqdesc]
  · intro i hi; simp [__ipipe_enable_irqdesc, hi]
  · simp [__ipipe_disable_irqdesc]

/-! ## Successful triggers -/

theorem filter_call_step_events (K : Consts) (irq : Nat) (d : ipipe_domain) (pos : Nat)
    (m_ack : Bool) : (step_events K irq d pos m_ack).filter is_handle_call = [] := by
  cases hH : test_bit K.IPIPE_HANDLE_FLAG (d.irqs irq).control <;>
    cases hA : (d.irqs irq).acknowledge <;> cases m_ack <;>
    simp [step_events, hH, hA, is_handle_call]

theorem filter_call_mark_pending (K : Consts) (irq : Nat) (L : List ipipe_domain) :
    ∀ (pos : Nat) (m_ack : Bool) (st : State),
      (mark_pending K irq L pos m_ack st).trace.filter is_handle_call = [] := by
  induction L with
  | nil => intro pos m_ack st; simp [mark_pending]
  | cons d rest ih =>
    intro pos m_ack st
    rw [mark_pending_cons]
    split
    · simp [List.filter_append, filter_call_step_events, ih]
    · exact filter_call_step_events _ _ _ _ _

theorem filter_call_handle_irq (K : Consts) (E : Env) (P : Pipeline) (irq : Nat)
    (regs : Option Nat) (st : State) :
    (__ipipe_handle_irq K E P irq regs st).trace.filter is_handle_call = [] := by
  rw [List.filter_eq_nil_iff]
  intro e he
  rcases handle_irq_cases K E P irq regs st with ⟨_, h⟩ | ⟨_, _, h⟩ | ⟨_, _, h⟩
  · rw [h] at he
    rcases mem_generic_path _ _ _ _ _ _ _ _ he with h1 | h1 | h1 | h1
    · exact (List.filter_eq_nil_iff.1 (filter_call_mark_pending K irq _ _ _ st)) e h1
    all_goals subst h1; simp [is_handle_call]
  · rw [h] at he
    rcases mem_wired_path _ _ _ _ _ _ _ he with ⟨cb, h1, _⟩ | h1 | h1 | h1 | h1
    all_goals subst h1; simp [is_handle_call]
  · rw [h] at he
    rcases mem_generic_path _ _ _ _ _ _ _ _ he with h1 | h1 | h1 | h1
    · exact (List.filter_eq_nil_iff.1 (filter_call_mark_pending K irq _ _ _ st)) e h1
    all_goals subst h1; simp [is_handle_call]

/-- C16: for `irq < IPIPE_NR_IRQS` that is not a virtual IRQ, or is a virtual
IRQ whose bit is set in the allocation map, `ipipe_trigger_irq` calls
`__ipipe_handle_irq(irq, NULL)` exactly once, with hardware interrupts masked,
leaves the hardware interrupt flag as it was on entry, and returns 1. -/
theorem ipipe_trigger_irq_valid (K : Consts) (E : Env) (P : Pipeline) (irq : Nat)
    (st : State)
    (hrange : irq < K.IPIPE_NR_IRQS)
    (hvirt : K.ipipe_virtual_irq_p irq = false ∨
      test_bit (usub32 irq K.IPIPE_VIRQ_BASE) st.virtual_irq_map = true) :
    (ipipe_trigger_irq K E P irq st).ret = 1 ∧
    (ipipe_trigger_irq K E P irq st).trace.filter is_handle_call =
      [Event.handle_irq irq true] ∧
    (ipipe_trigger_irq K E P irq st).trace =
      Event.handle_irq irq true ::
        (__ipipe_handle_irq K E P irq none { st with hw_irqs_on := false }).trace ∧
    (ipipe_trigger_irq K E P irq st).state =
      { (__ipipe_handle_irq K E P irq none { st with hw_irqs_on := false }).state with
        hw_irqs_on := st.hw_irqs_on } ∧
    (ipipe_trigger_irq K E P irq st).state.hw_irqs_on = st.hw_irqs_on := by
  have hc : (decide (K.IPIPE_NR_IRQS ≤ irq) ||
      (K.ipipe_virtual_irq_p irq &&
        !test_bit (usub32 irq K.IPIPE_VIRQ_BASE) st.virtual_irq_map)) = false := by
    have : ¬ K.IPIPE_NR_IRQS ≤ irq := by omega
    rcases hvirt with h | h <;> simp [this, h]
  have e : ipipe_trigger_irq K E P irq st =
      ⟨1, Event.handle_irq irq true ::
          (__ipipe_handle_irq K E P irq none { st with hw_irqs_on := false }).trace,
        { (__ipipe_handle_irq K E P irq none { st with hw_irqs_on := false }).state with
          hw_irqs_on := st.hw_irqs_on }⟩ := by
    simp only [ipipe_trigger_irq, hc, Bool.false_eq_true, if_false, local_irq_save_hw,
      local_irq_restore_hw]
  rw [e]
  refine ⟨rfl, ?_, rfl, rfl, rfl⟩
  simp [List.filter_cons, is_handle_call, filter_call_handle_irq]

theorem ipipe_trigger_irq_valid_witness :
    (ipipe_trigger_irq K0 E0 Plock 70 stv).ret = 1 ∧
      (ipipe_trigger_irq K0 E0 Plock 70 stv).trace.filter is_handle_call =
        [Event.handle_irq 70 true] ∧
      (ipipe_trigger_irq K0 E0 Plock 70 stv).state.hw_irqs_on = stv.hw_irqs_on :=
  ⟨(ipipe_trigger_irq_valid K0 E0 Plock 70 stv (by decide) (Or.inr (by decide))).1,
   (ipipe_trigger_irq_valid K0 E0 Plock 70 stv (by decide) (Or.inr (by decide))).2.1,
   (ipipe_trigger_irq_valid K0 E0 Plock 70 stv (by decide) (Or.inr (by decide))).2.2.2.2⟩

/-! ## Sticky interrupts -/

theorem mark_pending_ack_mem (K : Consts) (irq : Nat) (L : List ipipe_domain)
    (pos : Nat) (m_ack : Bool) (st : State) (j cb i : Nat)
    (h : Event.acknowledge j cb i ∈ (mark_pending K irq L pos m_ack st).trace) :
    pos ≤ j := by
  obtain ⟨s, t, e⟩ := List.append_of_mem h
  have hset := ackAfterPending_mark_pending K irq L pos m_ack st s t j cb i e
  have hmem : Event.set_irq_pending j i ∈ (mark_pending K irq L pos m_ack st).trace := by
    rw [e]; exact List.mem_append_left _ hset
  exact (mark_pending_set_mem K irq L pos m_ack st j i hmem).2.1

theorem filter_walk_step_events (K : Consts) (irq : Nat) (d : ipipe_domain) (pos : Nat)
    (m_ack : Bool) : (step_events K irq d pos m_ack).filter is_walk = [] := by
  cases hH : test_bit K.IPIPE_HANDLE_FLAG (d.irqs irq).control <;>
    cases hA : (d.irqs irq).acknowledge <;> cases m_ack <;>
    simp [step_events, hH, hA, is_walk]

theorem filter_walk_mark_pending (K : Consts) (irq : Nat) (L : List ipipe_domain) :
    ∀ (pos : Nat) (m_ack : Bool) (st : State),
      (mark_pending K irq L pos m_ack st).trace.filter is_walk = [] := by
  induction L with
  | nil => intro pos m_ack st; simp [mark_pending]
  | cons d rest ih =>
    intro pos m_ack st
    rw [mark_pending_cons]
    split
    · simp [List.filter_append, filter_walk_step_events, ih]
    · exact filter_walk_step_events _ _ _ _ _

theorem filter_walk_generic_path (K : Consts) (E : Env) (P : Pipeline) (irq head : Nat)
    (m_ack : Bool) (st : State) :
    (generic_path K E P irq head m_ack st).trace.filter is_walk =
      [Event.walk_pipeline head] := by
  have h1 : (root_lock K P
      (mark_pending K irq (P.domains.drop head) head m_ack st).state).1.filter is_walk = [] := by
    unfold root_lock
    split <;> simp [is_walk]
  have h2 : ∀ s st2, (restore_stall K s st2).trace.filter is_walk = [] := by
    intro s st2
    unfold restore_stall
    split <;> simp [is_walk]
  simp [generic_path, finalize, List.filter_append, filter_walk_mark_pending, h1, h2,
    List.filter_cons, is_walk]

theorem filter_dispatch_step_events (K : Consts) (irq : Nat) (d : ipipe_domain) (pos : Nat)
    (m_ack : Bool) : (step_events K irq d pos m_ack).filter is_dispatch = [] := by
  cases hH : test_bit K.IPIPE_HANDLE_FLAG (d.irqs irq).control <;>
    cases hA : (d.irqs irq).acknowledge <;> cases m_ack <;>
    simp [step_events, hH, hA, is_dispatch]

theorem filter_dispatch_mark_pending (K : Consts) (irq : Nat) (L : List ipipe_domain) :
    ∀ (pos : Nat) (m_ack : Bool) (st : State),
      (mark_pending K irq L pos m_ack st).trace.filter is_dispatch = [] := by
  induction L with
  | nil => intro pos m_ack st; simp [mark_pending]
  | cons d rest ih =>
    intro pos m_ack st
    rw [mark_pending_cons]
    split
    · simp [List.filter_append, filter_dispatch_step_events, ih]
    · exact filter_dispatch_step_events _ _ _ _ _

/-- C18: when the IRQ is STICKY in the current domain, `__ipipe_handle_irq`
takes the generic path from the current domain: it never calls
`__ipipe_dispatch_wired`, whatever the control word of the head domain; every
domain whose pending bit it sets or whose acknowledge callback it invokes is
the current domain or comes after it, and the marking loop leaves the pending
bits of the domains ahead of the current one as they were; its one call of
`__ipipe_walk_pipeline` starts from the link of the current domain. -/
theorem sticky_starts_at_current (K : Consts) (E : Env) (P : Pipeline) (irq : Nat)
    (regs : Option Nat) (st : State)
    (hS : test_bit K.IPIPE_STICKY_FLAG (P.this_domain.irqs irq).control = true) :
    (∀ d i, Event.dispatch_wired d i ∉ (__ipipe_handle_irq K E P irq regs st).trace) ∧
    (∀ j i, Event.set_irq_pending j i ∈ (__ipipe_handle_irq K E P irq regs st).trace →
      P.this_pos ≤ j) ∧
    (∀ j cb i, Event.acknowledge j cb i ∈ (__ipipe_handle_irq K E P irq regs st).trace →
      P.this_pos ≤ j) ∧
    (∀ j i, j < P.this_pos →
      (mark_pending K irq (P.domains.drop P.this_pos) P.this_pos
        (regs.isNone || irq == K.IRQ_SYSTMR || irq == K.IRQ_CORETMR) st).state.irqpend j i =
        st.irqpend j i) ∧
    (__ipipe_handle_irq K E P irq regs st).trace.filter is_walk =
      [Event.walk_pipeline P.this_pos] := by
  have e : __ipipe_handle_irq K E P irq regs st =
      generic_path K E P irq P.this_pos
        (regs.isNone || irq == K.IRQ_SYSTMR || irq == K.IRQ_CORETMR) st := by
    simp [__ipipe_handle_irq, hS]
  rw [e]
  refine ⟨?_, ?_, ?_, ?_, ?_⟩
  · intro d i h
    rcases mem_generic_path _ _ _ _ _ _ _ _ h with h | h | h | h
    · have := (List.filter_eq_nil_iff.1
        (filter_dispatch_mark_pending K irq _ _ _ st)) _ h
      simp [is_dispatch] at this
    all_goals simp at h
  · intro j i h
    rcases mem_generic_path _ _ _ _ _ _ _ _ h with h | h | h | h
    · exact (mark_pending_set_mem K irq _ _ _ st j i h).2.1
    all_goals simp at h
  · intro j cb i h
    rcases mem_generic_path _ _ _ _ _ _ _ _ h with h | h | h | h
    · exact mark_pending_ack_mem K irq _ _ _ st j cb i h
    all_goals simp at h
  · intro j i hj
    have hiff := mark_pending_irqpend K irq (P.domains.drop P.this_pos) P.this_pos
      (regs.isNone || irq == K.IRQ_SYSTMR || irq == K.IRQ_CORETMR) st j i
    cases hb : st.irqpend j i
    · cases ha : (mark_pending K irq (P.domains.drop P.this_pos) P.this_pos
          (regs.isNone || irq == K.IRQ_SYSTMR || irq == K.IRQ_CORETMR) st).state.irqpend j i
      · rfl
      · rcases hiff.1 ha with h1 | h1
        · rw [hb] at h1; cases h1
        · have := (mark_pending_set_mem K irq _ _ _ st j i h1).2.1
          omega
    · exact hiff.2 (Or.inl hb)
  · exact filter_walk_generic_path _ _ _ _ _ _ _

theorem sticky_starts_at_current_witness :
    (__ipipe_handle_irq K0 E0 Pstick2 5 (some 0) st0).trace.filter is_walk =
        [Event.walk_pipeline Pstick2.this_pos] ∧
      (__ipipe_handle_irq K0 E0 Pstick2 5 (some 0) st0).trace =
        [Event.set_irq_pending 1 5, Event.acknowledge 1 8 5, Event.set_irq_pending 2 5,
          Event.walk_pipeline 1] :=
  ⟨(sticky_starts_at_current K0 E0 Pstick2 5 (some 0) st0 (by decide)).2.2.2.2, by decide⟩

end Ipipe
